import Mathlib

/-
Verification of the EnSuRe fault-tolerant scheduler (src/EnSuRe_Scheduler.py).

Time values are modelled exactly as rationals.  The Python source computes in
floating point and patches float drift with
`round(..., precision_dp)`; over exact rationals that decimal re-rounding is
the identity whenever the time step is a power of ten (the repository always
uses 0.01 ms), so `roundUpTimeStep` below keeps only the ceiling-to-step and
the clamp of the source.

The classes `Task` and `Core` live in files `Task.py` / `Core.py` that are not
part of src/; their fields and accessors are modelled from the spec (section 3)
and from how EnSuRe_Scheduler.py calls them: per-window quota lists that are
appended once per window by `setWorkloadQuota` / `setBackupWorkloadQuota` and
indexed by window in `getWorkloadQuota(i)` / `getBackupWorkloadQuota(i)`.
-/

namespace EnSuRe

/-- Modelled from the spec: the Task record of the missing Task.py.
Immutable identity `id`, `deadline`, `weight`; per-window quota lists that
grow by one entry per window; mutable simulation state. -/
structure Task where
  id : Nat
  deadline : ℚ
  weight : ℚ
  workload_quota : List ℚ := []
  backup_workload_quota : List ℚ := []
  start_time : ℚ := 0
  backup_start_time : ℚ := 0
  encountered_fault : Bool := false
  relative_fault_time : ℚ := 0
  completed : Bool := false
deriving Repr, DecidableEq

/-- Modelled from the spec: `Task.getWorkloadQuota(i)` reads the window-i
entry of the per-window quota list (all uses in the scheduler are in range;
out of range is undefined in the source and defaults to 0 here). -/
def getWorkloadQuota (t : Task) (i : ℕ) : ℚ := t.workload_quota.getD i 0

/-- Modelled from the spec: `Task.getBackupWorkloadQuota(i)`. -/
def getBackupWorkloadQuota (t : Task) (i : ℕ) : ℚ := t.backup_workload_quota.getD i 0

/-- Modelled from the spec: `Task.setWorkloadQuota` appends the quota computed
for the current window. -/
def setWorkloadQuota (t : Task) (wq : ℚ) : Task :=
  { t with workload_quota := t.workload_quota ++ [wq] }

/-- Modelled from the spec: `Task.setBackupWorkloadQuota` appends the backup
quota computed for the current window. -/
def setBackupWorkloadQuota (t : Task) (bwq : ℚ) : Task :=
  { t with backup_workload_quota := t.backup_workload_quota ++ [bwq] }

/-- Modelled from the spec: `Task.resetEncounteredFault`, called by the
simulator at the start of each window. -/
def resetEncounteredFault (t : Task) : Task :=
  { t with encountered_fault := false }

/-- State of `EnSuRe_Scheduler` (EnSuRe_Scheduler.py lines 17-35): application
parameters plus the scheduler variables.  `pri_schedule` is the dict
window index -> ordered map, represented as a list indexed by window whose
entries are `((start_time, core_id), task)` pairs in dict insertion order. -/
structure Scheduler where
  k : ℕ
  frame : ℚ
  time_step : ℚ
  m_pri : ℕ
  lp_hp_ratio : ℚ
  pri_schedule : List (List ((ℚ × ℕ) × Task)) := []
  deadlines : List ℚ := []
  backup_start : List ℚ := []
  backup_list : List (List Task) := []
deriving Repr, DecidableEq

/-- Core of roundUpTimeStep over an explicit step: ceiling to the next
multiple of the step, clamped from below by one step. -/
def roundUpStep (step value : ℚ) : ℚ :=
  let out : ℚ := (⌈value / step⌉ : ℚ) * step
  if out < step then step else out

/-- EnSuRe_Scheduler.roundUpTimeStep (lines 50-54): ceiling to the next
multiple of the time step, clamped from below by one time step.  The decimal
re-rounding of the source is a float repair and is the identity over ℚ for
power-of-ten steps. -/
def roundUpTimeStep (s : Scheduler) (value : ℚ) : ℚ :=
  roundUpStep s.time_step value

/-- Reserve capacity summed in update_BB_overloading (lines 77-80): the backup
workload quotas of the first `min(k, |backup_list[idx]|)` entries. -/
def backupReserve (s : Scheduler) (idx : ℕ) : ℚ :=
  let bl := s.backup_list.getD idx []
  (((bl.take (min s.k bl.length)).map (fun t => getBackupWorkloadQuota t idx)).sum)

/-- EnSuRe_Scheduler.update_BB_overloading (lines 69-87).  Note the two
branches of the source: a missing entry is appended without the
`max sim_time` clamp; an existing entry is overwritten with the clamp. -/
def update_BB_overloading (s : Scheduler) (idx : ℕ) (sim_time : ℚ) : Scheduler :=
  let new_backup_start := s.deadlines.getD idx 0 - backupReserve s idx
  if s.backup_start.length ≤ idx then
    { s with backup_start := s.backup_start ++ [new_backup_start] }
  else
    { s with backup_start := s.backup_start.set idx (max sim_time new_backup_start) }

/-- EnSuRe_Scheduler.remove_from_backup_list (lines 56-67): drop every backup
entry with the given id from the window's backup list, then recompute the
BB-overloading window. -/
def remove_from_backup_list (s : Scheduler) (idx : ℕ) (taskId : ℕ) (sim_time : ℚ) : Scheduler :=
  let s1 := { s with
    backup_list := s.backup_list.set idx
      ((s.backup_list.getD idx []).filter (fun b => b.id != taskId)) }
  update_BB_overloading s1 idx sim_time

/-- Sort key getTaskWQ (lines 44-48): the last entry of the workload-quota
list (the quota of the window currently being built). -/
def lastWQ (t : Task) : ℚ := t.workload_quota.getD (t.workload_quota.length - 1) 0

/-- Ordering used for `tasksList.sort(key=getTaskDeadline)`: ascending
deadline; Python's sort is stable and so is `List.insertionSort`. -/
def deadlineLE (a b : Task) : Prop := a.deadline ≤ b.deadline

instance : DecidableRel deadlineLE :=
  fun a b => inferInstanceAs (Decidable (a.deadline ≤ b.deadline))

instance : IsTotal Task deadlineLE := ⟨fun a b => le_total a.deadline b.deadline⟩

instance : IsTrans Task deadlineLE := ⟨fun _ _ _ h1 h2 => le_trans h1 h2⟩

/-- Ordering used for `tasksA.sort(reverse=True, key=getTaskWQ)`:
non-increasing last workload quota, stable among equal quotas. -/
def wqGE (a b : Task) : Prop := lastWQ b ≤ lastWQ a

instance : DecidableRel wqGE :=
  fun a b => inferInstanceAs (Decidable (lastWQ b ≤ lastWQ a))

instance : IsTotal Task wqGE := ⟨fun a b => le_total (lastWQ b) (lastWQ a)⟩

instance : IsTrans Task wqGE := ⟨fun _ _ _ h1 h2 => le_trans h2 h1⟩

/-- Ordering used for `sorted(self.pri_schedule[i].items(), key=...key[0])`:
lexicographic on the `(start_time, core_id)` key. -/
def schedKeyLE (a b : (ℚ × ℕ) × Task) : Prop :=
  a.1.1 < b.1.1 ∨ (a.1.1 = b.1.1 ∧ a.1.2 ≤ b.1.2)

instance : DecidableRel schedKeyLE :=
  fun a b => inferInstanceAs (Decidable (a.1.1 < b.1.1 ∨ (a.1.1 = b.1.1 ∧ a.1.2 ≤ b.1.2)))

/-- Deadline extraction of generate_schedule lines 99-100: append each task
deadline not already present (first-occurrence deduplication). -/
def dedupAppend (acc : List ℚ) : List ℚ → List ℚ
  | [] => acc
  | d :: rest => if d ∈ acc then dedupAppend acc rest else dedupAppend (acc ++ [d]) rest

/-- Window length over an explicit deadline sequence. -/
def windowLenDs (ds : List ℚ) (i : ℕ) : ℚ :=
  if i = 0 then ds.getD 0 0 else ds.getD i 0 - ds.getD (i - 1) 0

/-- Window start over an explicit deadline sequence. -/
def windowStartDs (ds : List ℚ) (i : ℕ) : ℚ :=
  if i = 0 then 0 else ds.getD (i - 1) 0

/-- Window length of generate_schedule lines 104-110. -/
def windowLen (s : Scheduler) (i : ℕ) : ℚ := windowLenDs s.deadlines i

/-- Window start of generate_schedule lines 104-110. -/
def windowStart (s : Scheduler) (i : ℕ) : ℚ := windowStartDs s.deadlines i

/-- Quota computation for one task in one window (lines 114-118). -/
def setWindowQuotas (s : Scheduler) (time_window : ℚ) (t : Task) : Task :=
  setBackupWorkloadQuota
    (setWorkloadQuota t (roundUpTimeStep s (t.weight * time_window)))
    (roundUpTimeStep s (s.lp_hp_ratio * t.weight * time_window))

/-- Quota pass over the whole active task list (lines 113-119). -/
def quotaPass (s : Scheduler) (time_window : ℚ) (ts : List Task) : List Task :=
  ts.map (setWindowQuotas s time_window)

/-- Total primary workload quota accumulated during the quota pass
(line 119). -/
def totalWq (s : Scheduler) (time_window : ℚ) (ts : List Task) : ℚ :=
  (ts.map (fun t => roundUpTimeStep s (t.weight * time_window))).sum

/-- Core probing loop of generate_schedule lines 134-143: try the current
core; on overflow advance round-robin; fail after m_pri+1 probes (the source
counter exceeding m_pri).  `fuel` is the number of probes still allowed after
the current one; the source allows m_pri further probes. -/
def tryCoreAux (cores : List ℚ) (limit exec : ℚ) (m : ℕ) : ℕ → ℕ → Option ℕ
  | curr, fuel =>
    if cores.getD curr 0 + exec ≤ limit then some curr
    else
      match fuel with
      | 0 => none
      | fuel' + 1 =>
        tryCoreAux cores limit exec m (if curr + 1 ≥ m then 0 else curr + 1) fuel'

/-- State threaded through the LP packing loop (lines 128-159): round-robin
core index, per-core cursors, the window's schedule dict in insertion order,
the mutated `tasksA` (which becomes the backup list), and the caller's
`tasksList` being reduced by retirement. -/
structure PackSt where
  currPriCore : ℕ
  pri_cores : List ℚ
  sched : List ((ℚ × ℕ) × Task)
  packed : List Task
  tasks : List Task
deriving Repr

/-- Retirement removal (lines 156-159): remove the first task of the caller's
list whose id matches. -/
def removeFirstById (taskId : ℕ) : List Task → List Task
  | [] => []
  | t :: ts => if t.id == taskId then ts else t :: removeFirstById taskId ts

/-- Retirement step of generate_schedule lines 154-159: a packed task whose
deadline equals the current window deadline removes its original from the
caller's list. -/
def retireStep (dI : ℚ) (acc : List Task) (t : Task) : List Task :=
  if dI == t.deadline then removeFirstById t.id acc else acc

/-- LP packing loop of generate_schedule lines 131-159 over the sorted copy
`tasksA`.  On success the packed task (with its start time set) is recorded in
the window schedule and in `packed`; a task whose deadline equals the current
window deadline `dI` is retired from the caller's list. -/
def packLoop (m : ℕ) (i : ℕ) (limit dI : ℚ) : List Task → PackSt → Bool × PackSt
  | [], st => (true, st)
  | t :: rest, st =>
    let exec := getWorkloadQuota t i
    match tryCoreAux st.pri_cores limit exec m st.currPriCore m with
    | none => (false, st)
    | some c =>
      let startT := st.pri_cores.getD c 0
      let t2 := { t with start_time := startT }
      let st2 : PackSt :=
        { currPriCore := if c + 1 ≥ m then 0 else c + 1
          pri_cores := st.pri_cores.set c (startT + exec)
          sched := st.sched ++ [((startT, c), t2)]
          packed := st.packed ++ [t2]
          tasks := retireStep dI st.tasks t }
      packLoop m i limit dI rest st2

/-- One iteration of the window loop of generate_schedule (lines 103-188):
quota pass, capacity check, LP packing, schedule sort, backup list, and the
BB-overloading computation with sim_time = 0.  Returns the Bool outcome
together with the scheduler state and caller's task list exactly as the
source leaves them (including partial state on failure). -/
def windowStep (s : Scheduler) (i : ℕ) (ts : List Task) : Bool × Scheduler × List Task :=
  let tw := windowLen s i
  let sw := windowStart s i
  let ts2 := quotaPass s tw ts
  if totalWq s tw ts ≤ tw * (s.m_pri : ℚ) then
    let tasksA := List.insertionSort wqGE ts2
    let st0 : PackSt :=
      { currPriCore := 0, pri_cores := List.replicate s.m_pri sw
        sched := [], packed := [], tasks := ts2 }
    match packLoop s.m_pri i (sw + tw) (s.deadlines.getD i 0) tasksA st0 with
    | (false, st) =>
      (false, { s with pri_schedule := s.pri_schedule ++ [st.sched] }, st.tasks)
    | (true, st) =>
      let sortedSched := List.insertionSort schedKeyLE st.sched
      let s2 := { s with
        pri_schedule := s.pri_schedule ++ [sortedSched]
        backup_list := s.backup_list ++ [st.packed] }
      (true, update_BB_overloading s2 i 0, st.tasks)
  else
    (false, s, ts2)

/-- The window loop of generate_schedule: process `n` windows starting at
window `i`, stopping at the first failure with the state the source leaves
behind. -/
def buildLoop : Scheduler → List Task → ℕ → ℕ → Bool × Scheduler × List Task
  | s, ts, _, 0 => (true, s, ts)
  | s, ts, i, n + 1 =>
    match windowStep s i ts with
    | (true, s2, ts2) => buildLoop s2 ts2 (i + 1) n
    | (false, s2, ts2) => (false, s2, ts2)

/-- The scheduler/task-list configuration reached just before window `i + j`
when the window loop is started at window `i`; none if some earlier window
already failed. -/
def buildState : Scheduler → List Task → ℕ → ℕ → Option (Scheduler × List Task)
  | s, ts, _, 0 => some (s, ts)
  | s, ts, i, j + 1 =>
    match windowStep s i ts with
    | (true, s2, s2ts) => buildState s2 s2ts (i + 1) j
    | (false, _, _) => none

/-- A scheduler as left by __init__ (lines 17-35): parameters stored,
schedule variables empty. -/
def mkScheduler (k m : ℕ) (frame timeStep ratio : ℚ) : Scheduler :=
  { k := k, frame := frame, time_step := timeStep, m_pri := m, lp_hp_ratio := ratio }

/-- The scheduler state at the start of the window loop of generate_schedule
(line 99): the __init__ state with the extracted deadline sequence. -/
def startScheduler (k m : ℕ) (frame timeStep ratio : ℚ) (ds : List ℚ) : Scheduler :=
  { k := k, frame := frame, time_step := timeStep, m_pri := m, lp_hp_ratio := ratio
    deadlines := ds }

/-- EnSuRe_Scheduler.generate_schedule (lines 90-191): sort by deadline,
extract the unique deadline sequence, then run the window loop.  The result
carries the Bool outcome, the scheduler state, and the caller's (mutated)
task list. -/
def generate_schedule (k m : ℕ) (frame timeStep ratio : ℚ) (tasksList : List Task) :
    Bool × Scheduler × List Task :=
  let ts := List.insertionSort deadlineLE tasksList
  let ds := dedupAppend [] (ts.map Task.deadline)
  buildLoop (startScheduler k m frame timeStep ratio ds) ts 0 ds.length

/-- The capacity test of generate_schedule line 122: total workload quota of
the active tasks against the window capacity. -/
def capacityOk (s : Scheduler) (i : ℕ) (ts : List Task) : Prop :=
  totalWq s (windowLen s i) ts ≤ windowLen s i * (s.m_pri : ℚ)

instance (s : Scheduler) (i : ℕ) (ts : List Task) : Decidable (capacityOk s i ts) :=
  inferInstanceAs (Decidable (_ ≤ _))

/-- The LP packing attempt of window `i` started from the state windowStep
uses, succeeding iff every task finds a core (lines 131-148). -/
def packOk (s : Scheduler) (i : ℕ) (ts : List Task) : Prop :=
  (packLoop s.m_pri i (windowStart s i + windowLen s i) (s.deadlines.getD i 0)
      (List.insertionSort wqGE (quotaPass s (windowLen s i) ts))
      { currPriCore := 0, pri_cores := List.replicate s.m_pri (windowStart s i)
        sched := [], packed := [], tasks := quotaPass s (windowLen s i) ts }).1 = true

/-- Parameters stored by __init__ (lines 17-35).  The source performs no
validation of its arguments. -/
structure RawConfig where
  k : ℤ
  frame : ℚ
  time_step : ℚ
  m_pri : ℤ
  lp_hp_ratio : ℚ
deriving Repr, DecidableEq

/-- EnSuRe_Scheduler.__init__ (lines 7-35).  The only expression that can
raise is `math.log(self.time_step, 10)` for precision_dp, which needs a
positive argument; every parameter is stored unchecked.  A raised exception
is modelled as `none`. -/
def initEnSuRe (k : ℤ) (frame : ℚ) (timeStep : ℚ) (m : ℤ) (ratio : ℚ) :
    Option RawConfig :=
  if timeStep ≤ 0 then none
  else some { k := k, frame := frame, time_step := timeStep, m_pri := m, lp_hp_ratio := ratio }

/-- Inner validity scan of generate_fault_occurrences (lines 457-473): walk
the window's primary map in order; a fault time inside a task's execution
interval marks the first such task that is not already faulty (and records
the relative fault time); a hit on an already-faulty task keeps scanning;
if no task accepts the time the sample is rejected (`none`). -/
def markFaultScan (i : ℕ) (ft : ℚ) : List ((ℚ × ℕ) × Task) → Option (List ((ℚ × ℕ) × Task))
  | [] => none
  | (key, t) :: rest =>
    if key.1 ≤ ft ∧ ft ≤ key.1 + getWorkloadQuota t i then
      if t.encountered_fault then
        match markFaultScan i ft rest with
        | some rest2 => some ((key, t) :: rest2)
        | none => none
      else
        some ((key, { t with encountered_fault := true, relative_fault_time := ft - key.1 }) :: rest)
    else
      match markFaultScan i ft rest with
      | some rest2 => some ((key, t) :: rest2)
      | none => none

/-- Sampling loop of generate_fault_occurrences (lines 446-473), driven by an
explicit stream of random step counts in place of `random.randint`: place `f`
faults, resampling while the drawn time is invalid.  Exhausting the stream
models the (probabilistically terminating) unbounded resampling loop as
`none`. -/
def genFaultsAux (step sw : ℚ) (i : ℕ) :
    ℕ → List ℕ → List ((ℚ × ℕ) × Task) → Option (List ((ℚ × ℕ) × Task) × List ℕ)
  | 0, rands, sched => some (sched, rands)
  | _ + 1, [], _ => none
  | f + 1, r :: rands, sched =>
    let ft := step * (r : ℚ) + sw
    match markFaultScan i ft sched with
    | some sched2 => genFaultsAux step sw i f rands sched2
    | none => genFaultsAux step sw i (f + 1) rands sched
termination_by f rands _ => rands.length

/-- EnSuRe_Scheduler.generate_fault_occurrences (lines 421-475): inject
`min(k, |primary_map_idx|)` faults into the window's primary map. -/
def generate_fault_occurrences (s : Scheduler) (idx : ℕ) (rands : List ℕ) :
    Option (Scheduler × List ℕ) :=
  let sched := s.pri_schedule.getD idx []
  match genFaultsAux s.time_step (windowStart s idx) idx (min s.k sched.length) rands sched with
  | none => none
  | some (sched2, rands2) =>
    some ({ s with pri_schedule := s.pri_schedule.set idx sched2 }, rands2)

/-- State of the time-stepped simulator (simulate, lines 208-303).  The LP
and HP cores are modelled by their active durations; Core.py is not part of
src/ and its energy step is outside the claims.  `keys` is the not yet
dispatched suffix of the window's ordered primary map (the source's keyIdx
cursor). -/
structure SimSt where
  sch : Scheduler
  lp_assigned : List (Option Task)
  hp_assigned : Option Task
  keys : List ((ℚ × ℕ) × Task)
  sim_time : ℚ
  lp_active : List ℚ
  hp_active : ℚ
deriving Repr, DecidableEq

/-- Sub-step i of simulate (lines 224-229): accrue one time step of active
duration on every core whose slot is occupied. -/
def accrueActive (st : SimSt) : SimSt :=
  { st with
    lp_active := List.zipWith (fun a d => if a.isSome then d + st.sch.time_step else d)
      st.lp_assigned st.lp_active
    hp_active := if st.hp_assigned.isSome then st.hp_active + st.sch.time_step else st.hp_active }

/-- Completion handling for one LP core in sub-step ii of simulate
(lines 231-244): a finished fault-free task is removed from the backup list
and cancels its own running backup; the slot is freed in every finished
case. -/
def lpSweepStep (i : ℕ) (st : SimSt) (lp : ℕ) : SimSt :=
  match st.lp_assigned.getD lp none with
  | none => st
  | some t =>
    if st.sim_time ≥ t.start_time + getWorkloadQuota t i then
      let st1 :=
        if t.encountered_fault then st
        else
          { st with
            sch := remove_from_backup_list st.sch i t.id st.sim_time
            hp_assigned := match st.hp_assigned with
              | some h => if h.id = t.id then none else some h
              | none => none }
      { st1 with lp_assigned := st1.lp_assigned.set lp none }
    else st

/-- Sub-step ii of simulate: sweep every LP core in index order. -/
def lpSweep (i : ℕ) (st : SimSt) : SimSt :=
  (List.range st.lp_assigned.length).foldl (lpSweepStep i) st

/-- Sub-step iv of simulate (lines 246-253): a completed backup leaves the
backup list and frees the HP core. -/
def hpComplete (i : ℕ) (st : SimSt) : SimSt :=
  match st.hp_assigned with
  | none => st
  | some h =>
    if st.sch.backup_list.getD i [] ≠ [] ∧
        st.sim_time ≥ h.backup_start_time + getBackupWorkloadQuota h i then
      { st with
        sch := remove_from_backup_list st.sch i h.id st.sim_time
        hp_assigned := none }
    else st

/-- Stale-occupant handling inside dispatch sub-step v (lines 258-265): a
fault-free occupant of the target LP core that differs from the incoming
task runs its completion logic (backup-list removal and backup
cancellation). -/
def dispatchStale (i : ℕ) (c : ℕ) (tid : ℕ) (st : SimSt) : SimSt :=
  match st.lp_assigned.getD c none with
  | some u =>
    if u.id ≠ tid ∧ u.encountered_fault = false then
      { st with
        sch := remove_from_backup_list st.sch i u.id st.sim_time
        hp_assigned := match st.hp_assigned with
          | some h => if h.id = u.id then none else some h
          | none => none }
    else st
  | none => st

/-- Assignment inside dispatch sub-step v (lines 267-269): an empty or
differently occupied LP core receives the incoming task, started at the
current simulation time. -/
def dispatchAssign (c : ℕ) (t : Task) (st : SimSt) : SimSt :=
  match st.lp_assigned.getD c none with
  | none =>
    { st with lp_assigned := st.lp_assigned.set c (some { t with start_time := st.sim_time }) }
  | some u =>
    if u.id ≠ t.id then
      { st with lp_assigned := st.lp_assigned.set c (some { t with start_time := st.sim_time }) }
    else st

/-- Sub-step v of simulate (lines 255-275): dispatch every due entry of the
ordered primary map; a stale occupant that is fault-free runs its completion
logic first; the dispatched task starts at the current simulation time. -/
def dispatchLoop (i : ℕ) : List ((ℚ × ℕ) × Task) → SimSt → SimSt
  | [], st => { st with keys := [] }
  | e :: rest, st =>
    if st.sim_time ≥ e.1.1 then
      dispatchLoop i rest (dispatchAssign e.1.2 e.2 (dispatchStale i e.1.2 e.2.id st))
    else { st with keys := e :: rest }

/-- Sub-step vi of simulate (lines 277-285): once the clock has reached the
window's backup start, the head of the backup list occupies the HP core
(restarting its backup clock when it newly enters); an empty backup list
frees the HP core. -/
def hpDispatch (i : ℕ) (st : SimSt) : SimSt :=
  if st.sim_time ≥ st.sch.backup_start.getD i 0 then
    match st.sch.backup_list.getD i [] with
    | [] => { st with hp_assigned := none }
    | b :: _ =>
      match st.hp_assigned with
      | none => { st with hp_assigned := some { b with backup_start_time := st.sim_time } }
      | some h =>
        if h.id ≠ b.id then
          { st with hp_assigned := some { b with backup_start_time := st.sim_time } }
        else st
  else st

/-- One simulation time step for window `i` (loop body of lines 223-287). -/
def simStep (i : ℕ) (st : SimSt) : SimSt :=
  let st1 := accrueActive st
  let st2 := lpSweep i st1
  let st3 := hpComplete i st2
  let st4 := dispatchLoop i st3.keys st3
  let st5 := hpDispatch i st4
  { st5 with sim_time := st5.sim_time + st5.sch.time_step }

/-- The while loop of one window (line 223): step while the clock has not
passed the window deadline; `fuel` bounds the number of iterations, which the
theorems quantify over. -/
def simWindow (i : ℕ) (d : ℚ) : ℕ → SimSt → SimSt
  | 0, st => st
  | fuel + 1, st =>
    if st.sim_time ≤ d then simWindow i d fuel (simStep i st) else st

/-- Fault-state reset performed at the start of each window (lines 212-213). -/
def resetWindowFaults (sched : List ((ℚ × ℕ) × Task)) : List ((ℚ × ℕ) × Task) :=
  sched.map (fun e => (e.1, resetEncounteredFault e.2))

/-- Fault reset of window i applied to the scheduler (lines 212-213). -/
def resetSchedule (sch : Scheduler) (i : ℕ) : Scheduler :=
  { sch with
    pri_schedule := sch.pri_schedule.set i (resetWindowFaults (sch.pri_schedule.getD i [])) }

/-- One window of simulate (lines 210-287): reset fault flags, inject faults,
clear the core slots and the dispatch cursor, then run the stepped loop up to
the window deadline. -/
def simWindowRun (m fuel : ℕ) (rands : List ℕ) (st : SimSt) (i : ℕ) :
    Option (SimSt × List ℕ) :=
  match generate_fault_occurrences (resetSchedule st.sch i) i rands with
  | none => none
  | some (sch2, rands2) =>
    let st1 : SimSt :=
      { sch := sch2
        lp_assigned := List.replicate m none
        hp_assigned := none
        keys := sch2.pri_schedule.getD i []
        sim_time := st.sim_time
        lp_active := st.lp_active
        hp_active := st.hp_active }
    some (simWindow i (sch2.deadlines.getD i 0) fuel st1, rands2)

/-- Window iteration of simulate (line 210). -/
def simulateLoop (m fuel : ℕ) : List ℕ → List ℕ → SimSt → Option SimSt
  | [], _, st => some st
  | i :: rest, rands, st =>
    match simWindowRun m fuel rands st i with
    | none => none
    | some (st2, rands2) => simulateLoop m fuel rest rands2 st2

/-- EnSuRe_Scheduler.simulate (lines 208-287) up to the energy conversion:
run every window in order over `m` LP cores starting from idle cores and
clock 0. -/
def simulate (s : Scheduler) (m fuel : ℕ) (rands : List ℕ) : Option SimSt :=
  simulateLoop m fuel (List.range s.deadlines.length) rands
    { sch := s, lp_assigned := List.replicate m none, hp_assigned := none
      keys := [], sim_time := 0, lp_active := List.replicate m 0, hp_active := 0 }

/-- Task set of spec scenario 3 (two windows, two tasks). -/
def tasksC2 : List Task :=
  [{ id := 0, deadline := 10, weight := 2/5 }, { id := 1, deadline := 20, weight := 3/10 }]

/-- Scenario 3 run: k = 1, m = 1, Δ = 0.01, r = 0.8. -/
def runC2 : Bool × Scheduler × List Task :=
  generate_schedule 1 1 200 (1/100) (4/5) tasksC2

/-- Four tasks of weight 1/2 and deadline 10: schedulable on two LP cores,
but the k = 4 backup reservation exceeds the whole window. -/
def tasksNegBS : List Task :=
  [{ id := 0, deadline := 10, weight := 1/2 }, { id := 1, deadline := 10, weight := 1/2 },
   { id := 2, deadline := 10, weight := 1/2 }, { id := 3, deadline := 10, weight := 1/2 }]

/-- Run with k = 4, m = 2, Δ = 0.01, r = 0.8: succeeds with a negative
backup start appended during construction. -/
def runNegBS : Bool × Scheduler × List Task :=
  generate_schedule 4 2 200 (1/100) (4/5) tasksNegBS

/-- Two tasks whose second window is shorter than one time step, so window 0
commits and window 1 fails the capacity test. -/
def tasksPartial : List Task :=
  [{ id := 0, deadline := 10, weight := 1/2 }, { id := 1, deadline := 2001/200, weight := 2/5 }]

/-- Run with k = 1, m = 1, Δ = 0.01, r = 0.8: fails in window 1 after window
0 has been committed. -/
def runPartial : Bool × Scheduler × List Task :=
  generate_schedule 1 1 200 (1/100) (4/5) tasksPartial

/-- Scheduler facts used through the k = 0 simulation: no backup budget, and
the backup start of every window at or past the window deadline. -/
def SchedInv0 (sch : Scheduler) : Prop :=
  sch.k = 0
  ∧ sch.deadlines.length ≤ sch.backup_start.length
  ∧ ∀ j, sch.deadlines.getD j 0 ≤ sch.backup_start.getD j 0

/-- Single task for the k = 0 end-to-end run: deadline 2, weight 1/2, with a
1 ms time step so the whole simulation takes three steps. -/
def tasksC8 : List Task := [{ id := 0, deadline := 2, weight := 1/2 }]

/-- k = 0 build on one LP core. -/
def runC8 : Bool × Scheduler × List Task := generate_schedule 0 1 10 1 (4/5) tasksC8

/-- k = 0 simulation of that schedule (no faults, so no samples needed). -/
def simC8 : Option SimSt := simulate runC8.2.1 1 5 []

/-- Default simulation state used to pick concrete results in closed
statements. -/
def dummySimSt : SimSt :=
  { sch := mkScheduler 0 0 0 0 0, lp_assigned := [], hp_assigned := none
    keys := [], sim_time := 0, lp_active := [], hp_active := 0 }

/-- A concrete fault-generation run on window 0 of the scenario-3 schedule
with the sample stream [0]: the single fault lands at time 0 inside task 0's
execution interval. -/
def faultC6 : Scheduler × List ℕ :=
  (generate_fault_occurrences runC2.2.1 0 [0]).getD (runC2.2.1, [])

/-- A scheduler state with one window, one backup entry of quota 4, and no
backup_start entry yet (the state update_BB_overloading appends into). -/
def sBB1 : Scheduler :=
  { k := 1, frame := 200, time_step := 1/100, m_pri := 1, lp_hp_ratio := 4/5
    pri_schedule := [], deadlines := [10], backup_start := []
    backup_list := [[{ id := 0, deadline := 10, weight := 1/2, backup_workload_quota := [4] }]] }

/-- The same state with an existing backup_start entry (the state
update_BB_overloading overwrites). -/
def sBB2 : Scheduler := { sBB1 with backup_start := [2] }

/-- Default entry used to pick concrete schedule entries in closed
statements. -/
def dummyEntry : (ℚ × ℕ) × Task := ((0, 0), { id := 0, deadline := 0, weight := 0 })

/-- Correspondence between a task entering the LP packing loop and the copy
recorded in the schedule and backup list: only the start time may differ. -/
def packMatch (a b : Task) : Prop :=
  b.id = a.id ∧ b.deadline = a.deadline ∧ b.weight = a.weight
  ∧ b.workload_quota = a.workload_quota
  ∧ b.backup_workload_quota = a.backup_workload_quota

/-- Quota invariant of the committed windows: every entry of the primary map
of window w carries the quotas computed by the quota pass of that window, and
a positive weight. -/
def QuotaProp (step ratio : ℚ) (ds : List ℚ) (ps : List (List ((ℚ × ℕ) × Task))) : Prop :=
  ∀ w, ∀ e ∈ ps.getD w [],
    getWorkloadQuota e.2 w = roundUpStep step (e.2.weight * windowLenDs ds w)
    ∧ getBackupWorkloadQuota e.2 w = roundUpStep step (ratio * e.2.weight * windowLenDs ds w)
    ∧ 0 < e.2.weight

/-- Backup-list invariant of the committed windows: each backup list is in
non-increasing window-quota order and is a permutation of the tasks of the
window's primary map. -/
def BackupProp (ps : List (List ((ℚ × ℕ) × Task))) (bls : List (List Task)) : Prop :=
  ∀ w,
    List.Pairwise (fun a b => getWorkloadQuota b w ≤ getWorkloadQuota a w) (bls.getD w [])
    ∧ (bls.getD w []).Perm ((ps.getD w []).map (fun e => e.2))

/-- Invariant threaded through the window loop of generate_schedule: after
`i` committed windows the scheduler holds exactly `i` primary maps, backup
lists and backup starts satisfying the quota and backup invariants, and the
remaining task list carries `i` quota entries per task, deadlines among the
not yet processed ones, positive weights, and pairwise distinct ids. -/
structure BuildInv (k0 : ℕ) (step ratio : ℚ) (ds : List ℚ) (i : ℕ)
    (s : Scheduler) (ts : List Task) : Prop where
  hk : s.k = k0
  hstep : s.time_step = step
  hratio : s.lp_hp_ratio = ratio
  hds : s.deadlines = ds
  hplen : s.pri_schedule.length = i
  hbllen : s.backup_list.length = i
  hbslen : s.backup_start.length = i
  hql : ∀ t ∈ ts, t.workload_quota.length = i ∧ t.backup_workload_quota.length = i
  hdl : ∀ t ∈ ts, t.deadline ∈ ds.drop i
  hwpos : ∀ t ∈ ts, 0 < t.weight
  hnd : (ts.map Task.id).Nodup
  hquota : QuotaProp step ratio ds s.pri_schedule
  hbackup : BackupProp s.pri_schedule s.backup_list
  hbs0 : k0 = 0 → s.backup_start = ds.take i

end EnSuRe

namespace EnSuRe

theorem getD_len_le {α : Type} (l : List α) (i : ℕ) (d : α) (h : l.length ≤ i) :
    l.getD i d = d := by
  induction l generalizing i with
  | nil => simp [List.getD]
  | cons a t ih =>
    cases i with
    | zero => simp at h
    | succ j => simpa using ih j (Nat.le_of_succ_le_succ h)

theorem getD_set_self {α : Type} (l : List α) (i : ℕ) (a d : α) (h : i < l.length) :
    (l.set i a).getD i d = a := by
  induction l generalizing i with
  | nil => simp at h
  | cons b t ih =>
    cases i with
    | zero => simp
    | succ j => simpa using ih j (Nat.lt_of_succ_lt_succ h)

theorem getD_set_ne {α : Type} (l : List α) (i j : ℕ) (a d : α) (h : i ≠ j) :
    (l.set i a).getD j d = l.getD j d := by
  induction l generalizing i j with
  | nil => simp
  | cons b t ih =>
    cases i with
    | zero =>
      cases j with
      | zero => exact absurd rfl h
      | succ j2 => simp
    | succ i2 =>
      cases j with
      | zero => simp
      | succ j2 => simpa using ih i2 j2 (fun he => h (by omega))

theorem getD_append_lt {α : Type} (l l2 : List α) (i : ℕ) (d : α) (h : i < l.length) :
    (l ++ l2).getD i d = l.getD i d := by
  induction l generalizing i with
  | nil => simp at h
  | cons b t ih =>
    cases i with
    | zero => simp
    | succ j => simpa using ih j (Nat.lt_of_succ_lt_succ h)

theorem getD_append_len {α : Type} (l : List α) (a : α) (d : α) :
    (l ++ [a]).getD l.length d = a := by
  induction l with
  | nil => simp
  | cons b t ih => simpa using ih

/-- C1.  Counterexample to the claim: a successful generate_schedule run
(four tasks of weight 1/2 on two LP cores, k = 4) in which the construction
call update_BB_overloading(0, 0) appends backup_start[0] = 10 − 16 = −6.
The claimed value max(sim_time, d_w − Σ) = max(0, −6) = 0, and the claimed
invariant backup_start[w] ≥ sim_time = 0, are both violated: the append
branch of the source (line 85) stores the unclamped difference. -/
theorem C1_backup_start_below_sim_time :
    runNegBS.1 = true ∧ runNegBS.2.1.backup_start.getD 0 0 < 0 := by
  with_unfolding_all decide

/-- C1 (amended).  update_BB_overloading only applies the
max(sim_time, d_w − Σ bwq) clamp when it overwrites an existing entry, and
only then is backup_start[w] ≥ sim_time guaranteed; a first append stores
d_w − Σ bwq unclamped (EnSuRe_Scheduler.py lines 83-87). -/
theorem C1_update_BB_cases (s : Scheduler) (idx : ℕ) (t : ℚ) :
    (s.backup_start.length ≤ idx →
      (update_BB_overloading s idx t).backup_start
        = s.backup_start ++ [s.deadlines.getD idx 0 - backupReserve s idx])
    ∧ (idx < s.backup_start.length →
      (update_BB_overloading s idx t).backup_start.getD idx 0
          = max t (s.deadlines.getD idx 0 - backupReserve s idx)
      ∧ t ≤ (update_BB_overloading s idx t).backup_start.getD idx 0) := by
  constructor
  · intro h
    unfold update_BB_overloading
    simp [h]
  · intro h
    have hnot : ¬ s.backup_start.length ≤ idx := Nat.not_le.mpr h
    have hbs : (update_BB_overloading s idx t).backup_start
        = s.backup_start.set idx (max t (s.deadlines.getD idx 0 - backupReserve s idx)) := by
      unfold update_BB_overloading
      simp [hnot]
    rw [hbs, getD_set_self _ _ _ _ h]
    exact ⟨rfl, le_max_left _ _⟩

/-- C1 witness: the append branch stores 10 − 4 = 6 even at sim_time = 7,
while the overwrite branch clamps to max(7, 6) = 7 ≥ 7. -/
theorem C1_update_BB_cases_witness :
    (update_BB_overloading sBB1 0 7).backup_start = [6]
    ∧ (update_BB_overloading sBB2 0 7).backup_start.getD 0 0 = 7
    ∧ (7 : ℚ) ≤ (update_BB_overloading sBB2 0 7).backup_start.getD 0 0 := by
  have h1 := (C1_update_BB_cases sBB1 0 7).1 (by decide)
  have h2 := (C1_update_BB_cases sBB2 0 7).2 (by decide)
  refine ⟨?_, ?_, h2.2⟩
  · rw [h1]; with_unfolding_all decide
  · rw [h2.1]; with_unfolding_all decide

/-- C2.  Counterexample to the claim: on the scenario-3 task set with k = 1
the run succeeds but backup_start[0] is not the claimed 4.4. -/
theorem C2_backup_start_not_4_4 :
    runC2.1 = true ∧ ¬ runC2.2.1.backup_start.getD 0 0 = 22/5 := by
  with_unfolding_all decide

/-- C2 (amended).  On the scenario-3 task set with k = 1, Δ = 0.01, m = 1,
r = 0.8, generate_schedule succeeds with wq = 4, bwq = 3.2 for task 0 and
wq = 3, bwq = 2.4 for task 1 in both windows, backup list of window 0 equal
to [T0, T1] in non-increasing wq order, and, because the reservation takes
only the first min(k, |B_w|) = 1 backup quota, backup_start[0] = 10 − 3.2
= 6.8 (not 4.4) and backup_start[1] = 20 − 2.4 = 17.6. -/
theorem C2_scenario3_values :
    runC2.1 = true
    ∧ ((runC2.2.1.pri_schedule.getD 0 []).map
        (fun e => (e.1, e.2.id, getWorkloadQuota e.2 0, getBackupWorkloadQuota e.2 0)))
        = [((0, 0), 0, 4, 16/5), ((4, 0), 1, 3, 12/5)]
    ∧ ((runC2.2.1.pri_schedule.getD 1 []).map
        (fun e => (e.2.id, getWorkloadQuota e.2 1, getBackupWorkloadQuota e.2 1)))
        = [(1, 3, 12/5)]
    ∧ (runC2.2.1.backup_list.getD 0 []).map Task.id = [0, 1]
    ∧ ((runC2.2.1.backup_list.getD 0 []).map (fun t => getWorkloadQuota t 0)) = [4, 3]
    ∧ runC2.2.1.backup_start = [34/5, 88/5] := by
  with_unfolding_all decide

/-- C9.  Counterexample to the claim: constructing the scheduler with
k = 0, a negative frame, zero LP cores and lp_hp_ratio 2 ∉ (0,1) succeeds;
__init__ (lines 7-35) validates nothing. -/
theorem C9_invalid_config_accepted :
    (initEnSuRe 0 (-5) (1/100) 0 2).isSome = true := by
  with_unfolding_all decide

/-- C9 (amended).  Construction fails only when the time step is
non-positive (the math.log call for precision_dp raises); every other
parameter, including non-positive k, frame, m and r outside (0,1), is stored
unchecked. -/
theorem C9_construction_fails_iff :
    ∀ (k : ℤ) (frame timeStep : ℚ) (m : ℤ) (ratio : ℚ),
      (initEnSuRe k frame timeStep m ratio).isSome = true ↔ 0 < timeStep := by
  intro k frame ts m r
  unfold initEnSuRe
  split
  · next h => simp; linarith
  · next h => simp; linarith

theorem windowStep_true_iff (s : Scheduler) (i : ℕ) (ts : List Task) :
    (windowStep s i ts).1 = true ↔ capacityOk s i ts ∧ packOk s i ts := by
  unfold windowStep capacityOk packOk
  by_cases hcap : totalWq s (windowLen s i) ts ≤ windowLen s i * (s.m_pri : ℚ)
  · simp only [if_pos hcap, true_and]
    rcases hp : packLoop s.m_pri i (windowStart s i + windowLen s i) (s.deadlines.getD i 0)
        (List.insertionSort wqGE (quotaPass s (windowLen s i) ts))
        { currPriCore := 0, pri_cores := List.replicate s.m_pri (windowStart s i)
          sched := [], packed := [], tasks := quotaPass s (windowLen s i) ts } with ⟨b, st⟩
    cases b <;> simp [hp, hcap]
  · simp [if_neg hcap, hcap]

theorem buildLoop_true_iff (s : Scheduler) (ts : List Task) (i n : ℕ) :
    (buildLoop s ts i n).1 = true ↔
      ∀ j < n, ∃ p : Scheduler × List Task,
        buildState s ts i j = some p ∧ capacityOk p.1 (i + j) p.2 ∧ packOk p.1 (i + j) p.2 := by
  induction n generalizing s ts i with
  | zero => simp [buildLoop]
  | succ n ih =>
    rcases hw : windowStep s i ts with ⟨b, s2, ts2⟩
    cases b with
    | true =>
      have h0 : capacityOk s i ts ∧ packOk s i ts :=
        (windowStep_true_iff s i ts).mp (by rw [hw])
      have hbl : buildLoop s ts i (n + 1) = buildLoop s2 ts2 (i + 1) n := by
        simp only [buildLoop, hw]
      have hbsucc : ∀ j, buildState s ts i (j + 1) = buildState s2 ts2 (i + 1) j := by
        intro j
        simp only [buildState, hw]
      constructor
      · intro htrue j hj
        have htrue2 : (buildLoop s2 ts2 (i + 1) n).1 = true := by rw [← hbl]; exact htrue
        cases j with
        | zero =>
          refine ⟨(s, ts), by simp [buildState], ?_, ?_⟩
          · simpa using h0.1
          · simpa using h0.2
        | succ j2 =>
          obtain ⟨p, hp1, hp2, hp3⟩ := (ih s2 ts2 (i + 1)).mp htrue2 j2 (by omega)
          refine ⟨p, ?_, ?_, ?_⟩
          · rw [hbsucc]; exact hp1
          · rw [Nat.add_succ]; rw [Nat.succ_add] at hp2; exact hp2
          · rw [Nat.add_succ]; rw [Nat.succ_add] at hp3; exact hp3
      · intro hall
        rw [hbl]
        apply (ih s2 ts2 (i + 1)).mpr
        intro j hj
        obtain ⟨p, hp1, hp2, hp3⟩ := hall (j + 1) (by omega)
        rw [hbsucc] at hp1
        refine ⟨p, hp1, ?_, ?_⟩
        · rw [Nat.succ_add]; rw [Nat.add_succ] at hp2; exact hp2
        · rw [Nat.succ_add]; rw [Nat.add_succ] at hp3; exact hp3
    | false =>
      constructor
      · intro htrue
        have : (buildLoop s ts i (n + 1)).1 = false := by
          simp only [buildLoop, hw]
        rw [htrue] at this
        exact absurd this (by simp)
      · intro hall
        obtain ⟨p, hp1, hp2, hp3⟩ := hall 0 (by omega)
        have hps : p = (s, ts) := by
          have : buildState s ts i 0 = some (s, ts) := by simp [buildState]
          rw [this] at hp1
          exact (Option.some_inj.mp hp1).symm
        subst hps
        have : (windowStep s i ts).1 = true := by
          apply (windowStep_true_iff s i ts).mpr
          exact ⟨by simpa using hp2, by simpa using hp3⟩
        rw [hw] at this
        exact absurd this (by simp)

/-- C3.  generate_schedule returns True exactly when every window it
processes passes the capacity test `Σ wq ≤ len_w · m` and the LP packing;
in particular a processed window whose total workload quota exceeds
`len_w · m` forces the False result, and if every window passes both checks
the result is True. -/
theorem C3_success_iff_capacity_and_packing
    (k m : ℕ) (frame timeStep ratio : ℚ) (tasksList : List Task) :
    (generate_schedule k m frame timeStep ratio tasksList).1 = true ↔
      (∀ j < (dedupAppend [] ((List.insertionSort deadlineLE tasksList).map Task.deadline)).length,
        ∃ p : Scheduler × List Task,
          buildState
            (startScheduler k m frame timeStep ratio
              (dedupAppend [] ((List.insertionSort deadlineLE tasksList).map Task.deadline)))
            (List.insertionSort deadlineLE tasksList) 0 j = some p
          ∧ capacityOk p.1 j p.2 ∧ packOk p.1 j p.2) := by
  unfold generate_schedule
  rw [buildLoop_true_iff]
  constructor
  · intro h j hj
    obtain ⟨p, h1, h2, h3⟩ := h j hj
    exact ⟨p, h1, by simpa using h2, by simpa using h3⟩
  · intro h j hj
    obtain ⟨p, h1, h2, h3⟩ := h j hj
    exact ⟨p, h1, by simpa using h2, by simpa using h3⟩

theorem setWindowQuotas_id (s : Scheduler) (tw : ℚ) (t : Task) :
    (setWindowQuotas s tw t).id = t.id := rfl

theorem setWindowQuotas_deadline (s : Scheduler) (tw : ℚ) (t : Task) :
    (setWindowQuotas s tw t).deadline = t.deadline := rfl

theorem setWindowQuotas_weight (s : Scheduler) (tw : ℚ) (t : Task) :
    (setWindowQuotas s tw t).weight = t.weight := rfl

theorem setWindowQuotas_wq (s : Scheduler) (tw : ℚ) (t : Task) :
    (setWindowQuotas s tw t).workload_quota
      = t.workload_quota ++ [roundUpTimeStep s (t.weight * tw)] := rfl

theorem setWindowQuotas_bwq (s : Scheduler) (tw : ℚ) (t : Task) :
    (setWindowQuotas s tw t).backup_workload_quota
      = t.backup_workload_quota ++ [roundUpTimeStep s (s.lp_hp_ratio * t.weight * tw)] := rfl

theorem update_BB_parts (s : Scheduler) (idx : ℕ) (t : ℚ) :
    (update_BB_overloading s idx t).k = s.k
    ∧ (update_BB_overloading s idx t).time_step = s.time_step
    ∧ (update_BB_overloading s idx t).lp_hp_ratio = s.lp_hp_ratio
    ∧ (update_BB_overloading s idx t).deadlines = s.deadlines
    ∧ (update_BB_overloading s idx t).pri_schedule = s.pri_schedule
    ∧ (update_BB_overloading s idx t).backup_list = s.backup_list
    ∧ (update_BB_overloading s idx t).m_pri = s.m_pri := by
  unfold update_BB_overloading
  split <;> simp

theorem update_BB_append (s : Scheduler) (idx : ℕ) (t : ℚ)
    (h : s.backup_start.length ≤ idx) :
    (update_BB_overloading s idx t).backup_start
      = s.backup_start ++ [s.deadlines.getD idx 0 - backupReserve s idx] := by
  unfold update_BB_overloading
  simp [h]

theorem backupReserve_k0 (s : Scheduler) (idx : ℕ) (h : s.k = 0) :
    backupReserve s idx = 0 := by
  unfold backupReserve
  simp [h]

theorem removeFirstById_eq_filter (x : ℕ) (l : List Task)
    (h : (l.map Task.id).Nodup) :
    removeFirstById x l = l.filter (fun t => t.id != x) := by
  induction l with
  | nil => simp [removeFirstById]
  | cons t rest ih =>
    simp only [List.map_cons, List.nodup_cons] at h
    by_cases ht : t.id = x
    · have hrest : rest.filter (fun u => u.id != x) = rest := by
        apply List.filter_eq_self.mpr
        intro u hu
        have : u.id ≠ x := by
          intro he
          exact h.1 (by rw [← he] at ht; rw [ht]; exact List.mem_map_of_mem Task.id hu)
        simpa using this
      simp [removeFirstById, ht, hrest]
    · simp [removeFirstById, ht, ih h.2]

theorem nodup_ids_filter (l : List Task) (p : Task → Bool)
    (h : (l.map Task.id).Nodup) : ((l.filter p).map Task.id).Nodup := by
  apply List.Nodup.sublist _ h
  exact List.Sublist.map Task.id (List.filter_sublist l)

theorem foldl_retire_filter (dI : ℚ) :
    ∀ (A l : List Task), (l.map Task.id).Nodup →
      A.foldl (retireStep dI) l
        = l.filter (fun u => !(A.any (fun a => dI == a.deadline && a.id == u.id))) := by
  intro A
  induction A with
  | nil =>
    intro l _
    simp
  | cons a A2 ih =>
    intro l h
    rw [List.foldl_cons]
    by_cases ha : dI = a.deadline
    · have hretire : retireStep dI l a = l.filter (fun t => t.id != a.id) := by
        unfold retireStep
        rw [if_pos (beq_iff_eq.mpr ha)]
        exact removeFirstById_eq_filter a.id l h
      rw [hretire, ih _ (nodup_ids_filter l _ h), List.filter_filter]
      apply List.filter_congr
      intro u _
      by_cases h2 : a.id = u.id
      · simp [ha, h2]
      · have hb1 : (u.id != a.id) = true := by simp [Ne.symm h2]
        have hb2 : (a.id == u.id) = false := by simp [h2]
        have hb3 : (dI == a.deadline) = true := beq_iff_eq.mpr ha
        simp [List.any_cons, hb1, hb2, hb3, Bool.and_comm]
    · have hretire : retireStep dI l a = l := by
        unfold retireStep
        rw [if_neg (by simpa using ha)]
      rw [hretire, ih _ h]
      apply List.filter_congr
      intro u _
      simp [ha]

theorem forall₂_mem_right {α β : Type} {R : α → β → Prop} :
    ∀ {A : List α} {B : List β}, List.Forall₂ R A B → ∀ b ∈ B, ∃ a ∈ A, R a b := by
  intro A B h
  induction h with
  | nil => intro b hb; simp at hb
  | cons hab htail ih =>
    intro b hb
    rcases List.mem_cons.mp hb with rfl | hb2
    · exact ⟨_, List.mem_cons_self _ _, hab⟩
    · obtain ⟨a, ha, har⟩ := ih b hb2
      exact ⟨a, List.mem_cons_of_mem _ ha, har⟩

theorem packMatch_wq (i : ℕ) {a b : Task} (h : packMatch a b) :
    getWorkloadQuota b i = getWorkloadQuota a i := by
  unfold getWorkloadQuota
  rw [h.2.2.2.1]

theorem pairwise_wq_of_forall₂ (i : ℕ) :
    ∀ {A B : List Task}, List.Forall₂ packMatch A B →
      List.Pairwise (fun a b => getWorkloadQuota b i ≤ getWorkloadQuota a i) A →
      List.Pairwise (fun a b => getWorkloadQuota b i ≤ getWorkloadQuota a i) B := by
  intro A B h
  induction h with
  | nil => intro _; exact List.Pairwise.nil
  | cons hab htail ih =>
    intro hp
    rcases List.pairwise_cons.mp hp with ⟨hhead, htl⟩
    refine List.pairwise_cons.mpr ⟨?_, ih htl⟩
    intro b2 hb2
    obtain ⟨a2, ha2, har⟩ := forall₂_mem_right htail b2 hb2
    rw [packMatch_wq i har, packMatch_wq i hab]
    exact hhead a2 ha2

theorem take_succ_getD {α : Type} (l : List α) (i : ℕ) (d : α) (h : i < l.length) :
    l.take (i + 1) = l.take i ++ [l.getD i d] := by
  induction l generalizing i with
  | nil => simp at h
  | cons a t ih =>
    cases i with
    | zero => simp
    | succ j => simp [ih j (Nat.lt_of_succ_lt_succ h)]

theorem getD_mem_of_lt {α : Type} (l : List α) (i : ℕ) (d : α) (h : i < l.length) :
    l.getD i d ∈ l := by
  induction l generalizing i with
  | nil => simp at h
  | cons a t ih =>
    cases i with
    | zero => simp
    | succ j => exact List.mem_cons_of_mem a (ih j (Nat.lt_of_succ_lt_succ h))

theorem dedupAppend_mem (x : ℚ) :
    ∀ (input acc : List ℚ), (x ∈ acc ∨ x ∈ input) → x ∈ dedupAppend acc input := by
  intro input
  induction input with
  | nil =>
    intro acc h
    rcases h with h | h
    · simpa [dedupAppend] using h
    · simp at h
  | cons d rest ih =>
    intro acc h
    unfold dedupAppend
    by_cases hd : d ∈ acc
    · rw [if_pos hd]
      apply ih
      rcases h with h | h
      · exact Or.inl h
      · rcases List.mem_cons.mp h with rfl | h2
        · exact Or.inl hd
        · exact Or.inr h2
    · rw [if_neg hd]
      apply ih
      rcases h with h | h
      · exact Or.inl (List.mem_append_left _ h)
      · rcases List.mem_cons.mp h with rfl | h2
        · exact Or.inl (List.mem_append_right _ (by simp))
        · exact Or.inr h2

theorem dedupAppend_subset (x : ℚ) :
    ∀ (input acc : List ℚ), x ∈ dedupAppend acc input → x ∈ acc ∨ x ∈ input := by
  intro input
  induction input with
  | nil =>
    intro acc h
    exact Or.inl (by simpa [dedupAppend] using h)
  | cons d rest ih =>
    intro acc h
    unfold dedupAppend at h
    by_cases hd : d ∈ acc
    · rw [if_pos hd] at h
      rcases ih acc h with h2 | h2
      · exact Or.inl h2
      · exact Or.inr (List.mem_cons_of_mem _ h2)
    · rw [if_neg hd] at h
      rcases ih (acc ++ [d]) h with h2 | h2
      · rcases List.mem_append.mp h2 with h3 | h3
        · exact Or.inl h3
        · exact Or.inr (by simp at h3; simp [h3])
      · exact Or.inr (List.mem_cons_of_mem _ h2)

theorem dedupAppend_chain :
    ∀ (input acc : List ℚ),
      List.Pairwise (· ≤ ·) input → List.Chain' (· < ·) acc →
      (∀ a ∈ acc, ∀ b ∈ input, a ≤ b) →
      List.Chain' (· < ·) (dedupAppend acc input) := by
  intro input
  induction input with
  | nil =>
    intro acc _ hc _
    simpa [dedupAppend] using hc
  | cons d rest ih =>
    intro acc hp hc hle
    rcases List.pairwise_cons.mp hp with ⟨hdrest, hprest⟩
    unfold dedupAppend
    by_cases hd : d ∈ acc
    · rw [if_pos hd]
      exact ih acc hprest hc (fun a ha b hb => hle a ha b (List.mem_cons_of_mem _ hb))
    · rw [if_neg hd]
      apply ih (acc ++ [d]) hprest
      · apply List.chain'_append.mpr
        refine ⟨hc, List.chain'_singleton d, ?_⟩
        intro x hx y hy
        simp only [List.head?_cons, Option.mem_def, Option.some.injEq] at hy
        subst hy
        have hxmem : x ∈ acc := by
          obtain ⟨hne, hxl⟩ := List.mem_getLast?_eq_getLast hx
          rw [hxl]
          exact List.getLast_mem hne
        have hxle : x ≤ d := hle x hxmem d (List.mem_cons_self _ _)
        have hxne : x ≠ d := fun he => hd (he ▸ hxmem)
        exact lt_of_le_of_ne hxle hxne
      · intro a ha b hb
        rcases List.mem_append.mp ha with ha2 | ha2
        · exact hle a ha2 b (List.mem_cons_of_mem _ hb)
        · rw [List.mem_singleton.mp ha2]
          exact hdrest b hb

theorem chain_getD_lt (ds : List ℚ) (h : List.Chain' (· < ·) ds) (i : ℕ)
    (hi : i + 1 < ds.length) :
    ds.getD i 0 < ds.getD (i + 1) 0 := by
  have hg := List.chain'_iff_get.mp h i (by omega)
  rw [List.getD_eq_getElem ds 0 (by omega), List.getD_eq_getElem ds 0 hi]
  simpa [List.get_eq_getElem] using hg

theorem windowLenDs_pos (ds : List ℚ) (hchain : List.Chain' (· < ·) ds)
    (hpos : ∀ d ∈ ds, 0 < d) (w : ℕ) (hw : w < ds.length) :
    0 < windowLenDs ds w := by
  unfold windowLenDs
  cases w with
  | zero =>
    simp only [if_pos rfl]
    exact hpos _ (getD_mem_of_lt ds 0 0 hw)
  | succ v =>
    rw [if_neg (Nat.succ_ne_zero v)]
    have h2 := chain_getD_lt ds hchain v hw
    rw [Nat.add_sub_cancel]
    linarith

theorem roundUpStep_of_pos (step v : ℚ) (hs : 0 < step) (hv : 0 < v) :
    roundUpStep step v = (⌈v / step⌉ : ℚ) * step ∧ step ≤ roundUpStep step v := by
  have hdiv : 0 < v / step := div_pos hv hs
  have hceil : (1 : ℤ) ≤ ⌈v / step⌉ := by
    have := Int.ceil_pos.mpr hdiv
    omega
  have hcast : (1 : ℚ) ≤ (⌈v / step⌉ : ℚ) := by exact_mod_cast hceil
  have hge : step ≤ (⌈v / step⌉ : ℚ) * step := by
    calc step = 1 * step := (one_mul step).symm
    _ ≤ (⌈v / step⌉ : ℚ) * step := mul_le_mul_of_nonneg_right hcast (le_of_lt hs)
  unfold roundUpStep
  rw [if_neg (not_lt.mpr hge)]
  exact ⟨rfl, hge⟩

theorem packLoop_spec (m i : ℕ) (lim dI : ℚ) :
    ∀ (A : List Task) (st : PackSt),
      (packLoop m i lim dI A st).1 = true →
      ∃ B : List Task,
        (packLoop m i lim dI A st).2.packed = st.packed ++ B
        ∧ (packLoop m i lim dI A st).2.sched.map (fun e => e.2)
            = st.sched.map (fun e => e.2) ++ B
        ∧ List.Forall₂ packMatch A B
        ∧ (packLoop m i lim dI A st).2.tasks = A.foldl (retireStep dI) st.tasks := by
  intro A
  induction A with
  | nil =>
    intro st _
    exact ⟨[], by simp [packLoop], by simp [packLoop], List.Forall₂.nil, by simp [packLoop]⟩
  | cons t rest ih =>
    intro st h
    rcases htc : tryCoreAux st.pri_cores lim (getWorkloadQuota t i) m st.currPriCore m with _ | c
    · have : (packLoop m i lim dI (t :: rest) st).1 = false := by
        simp only [packLoop, htc]
      rw [h] at this
      exact absurd this (by simp)
    · have hunfold : packLoop m i lim dI (t :: rest) st = packLoop m i lim dI rest
          { currPriCore := if c + 1 ≥ m then 0 else c + 1
            pri_cores := st.pri_cores.set c (st.pri_cores.getD c 0 + getWorkloadQuota t i)
            sched := st.sched ++ [((st.pri_cores.getD c 0, c),
              { t with start_time := st.pri_cores.getD c 0 })]
            packed := st.packed ++ [{ t with start_time := st.pri_cores.getD c 0 }]
            tasks := retireStep dI st.tasks t } := by
        simp only [packLoop, htc]
      rw [hunfold] at h ⊢
      obtain ⟨B, hpk, hsc, hf, hts⟩ := ih _ h
      refine ⟨{ t with start_time := st.pri_cores.getD c 0 } :: B, ?_, ?_, ?_, ?_⟩
      · rw [hpk]
        simp
      · rw [hsc]
        simp
      · refine List.Forall₂.cons ?_ hf
        simp [packMatch]
      · rw [hts]
        simp [List.foldl_cons, retireStep]

theorem inj_ids {l : List Task} (h : (l.map Task.id).Nodup) :
    ∀ a ∈ l, ∀ u ∈ l, a.id = u.id → a = u := by
  intro a ha u hu he
  exact List.inj_on_of_nodup_map h ha hu he

theorem windowStep_inv (k0 : ℕ) (step ratio : ℚ) (ds : List ℚ) (i : ℕ)
    (s : Scheduler) (ts : List Task)
    (hI : BuildInv k0 step ratio ds i s ts)
    (hi : i < ds.length)
    (hs : (windowStep s i ts).1 = true) :
    BuildInv k0 step ratio ds (i + 1) (windowStep s i ts).2.1 (windowStep s i ts).2.2 := by
  by_cases hcap : totalWq s (windowLen s i) ts ≤ windowLen s i * (s.m_pri : ℚ)
  · rcases hp : packLoop s.m_pri i (windowStart s i + windowLen s i) (s.deadlines.getD i 0)
        (List.insertionSort wqGE (quotaPass s (windowLen s i) ts))
        { currPriCore := 0, pri_cores := List.replicate s.m_pri (windowStart s i)
          sched := [], packed := [], tasks := quotaPass s (windowLen s i) ts } with ⟨b, st⟩
    cases b
    · exfalso
      have hfalse : (windowStep s i ts).1 = false := by
        simp only [windowStep, if_pos hcap, hp]
      rw [hs] at hfalse
      exact absurd hfalse (by simp)
    · set s2 : Scheduler :=
        { s with pri_schedule := s.pri_schedule ++ [List.insertionSort schedKeyLE st.sched]
                 backup_list := s.backup_list ++ [st.packed] } with hs2def
      have heq : windowStep s i ts = (true, update_BB_overloading s2 i 0, st.tasks) := by
        rw [hs2def]
        simp only [windowStep, if_pos hcap, hp]
      obtain ⟨B, hpk, hsc, hf, hts⟩ := packLoop_spec s.m_pri i
          (windowStart s i + windowLen s i) (s.deadlines.getD i 0)
          (List.insertionSort wqGE (quotaPass s (windowLen s i) ts))
          { currPriCore := 0, pri_cores := List.replicate s.m_pri (windowStart s i)
            sched := [], packed := [], tasks := quotaPass s (windowLen s i) ts }
          (by rw [hp])
      rw [hp] at hpk hsc hts
      simp only [List.nil_append, List.map_nil] at hpk hsc hts
      have hnd2 : ((quotaPass s (windowLen s i) ts).map Task.id).Nodup := by
        unfold quotaPass
        rw [List.map_map]
        have hcomp : (Task.id ∘ setWindowQuotas s (windowLen s i)) = Task.id :=
          funext (fun t => rfl)
        rw [hcomp]
        exact hI.hnd
      have hmem_ts2 : ∀ u ∈ quotaPass s (windowLen s i) ts,
          ∃ t0 ∈ ts, u = setWindowQuotas s (windowLen s i) t0 := by
        intro u hu
        obtain ⟨t0, ht0, hu0⟩ := List.mem_map.mp hu
        exact ⟨t0, ht0, hu0.symm⟩
      have hql2 : ∀ u ∈ quotaPass s (windowLen s i) ts,
          u.workload_quota.length = i + 1 ∧ u.backup_workload_quota.length = i + 1 := by
        intro u hu
        obtain ⟨t0, ht0, rfl⟩ := hmem_ts2 u hu
        have hl := hI.hql t0 ht0
        constructor
        · rw [setWindowQuotas_wq]
          simp [hl.1]
        · rw [setWindowQuotas_bwq]
          simp [hl.2]
      have hAperm : (List.insertionSort wqGE (quotaPass s (windowLen s i) ts)).Perm
          (quotaPass s (windowLen s i) ts) := List.perm_insertionSort _ _
      have huniq := inj_ids hnd2
      have hfilter_eq : st.tasks = (quotaPass s (windowLen s i) ts).filter
          (fun u => !(s.deadlines.getD i 0 == u.deadline)) := by
        rw [hts, foldl_retire_filter _ _ _ hnd2]
        apply List.filter_congr
        intro u hu
        congr 1
        by_cases hud : s.deadlines.getD i 0 = u.deadline
        · have hbu : (s.deadlines.getD i 0 == u.deadline) = true := beq_iff_eq.mpr hud
          have hany : (List.insertionSort wqGE (quotaPass s (windowLen s i) ts)).any
              (fun a => s.deadlines.getD i 0 == a.deadline && a.id == u.id) = true := by
            apply List.any_eq_true.mpr
            refine ⟨u, hAperm.mem_iff.mpr hu, ?_⟩
            simp only [Bool.and_eq_true, beq_iff_eq]
            exact ⟨hud, by simp⟩
          rw [hany, hbu]
        · have hbu : (s.deadlines.getD i 0 == u.deadline) = false :=
            beq_eq_false_iff_ne.mpr hud
          have hany : (List.insertionSort wqGE (quotaPass s (windowLen s i) ts)).any
              (fun a => s.deadlines.getD i 0 == a.deadline && a.id == u.id) = false := by
            apply List.any_eq_false.mpr
            intro a ha hcontra
            simp only [Bool.and_eq_true, beq_iff_eq] at hcontra
            have hats2 : a ∈ quotaPass s (windowLen s i) ts := hAperm.mem_iff.mp ha
            have : a = u := huniq a hats2 u hu hcontra.2
            exact hud (by rw [hcontra.1, this])
          rw [hany, hbu]
      have hs2k : s2.k = s.k := by rw [hs2def]
      have hs2step : s2.time_step = s.time_step := by rw [hs2def]
      have hs2ratio : s2.lp_hp_ratio = s.lp_hp_ratio := by rw [hs2def]
      have hs2ds : s2.deadlines = s.deadlines := by rw [hs2def]
      have hs2bs : s2.backup_start = s.backup_start := by rw [hs2def]
      have hs2pri : s2.pri_schedule
          = s.pri_schedule ++ [List.insertionSort schedKeyLE st.sched] := by rw [hs2def]
      have hs2bl : s2.backup_list = s.backup_list ++ [st.packed] := by rw [hs2def]
      have hup := update_BB_parts s2 i 0
      have hbsapp : (update_BB_overloading s2 i 0).backup_start
          = s.backup_start ++ [s.deadlines.getD i 0 - backupReserve s2 i] := by
        rw [update_BB_append s2 i 0 (by rw [hs2bs]; exact le_of_eq hI.hbslen)]
      rw [heq]
      -- the new task entries of window i
      have hnewEntry : ∀ e ∈ List.insertionSort schedKeyLE st.sched,
          ∃ a ∈ List.insertionSort wqGE (quotaPass s (windowLen s i) ts), packMatch a e.2 := by
        intro e he
        have hesched : e ∈ st.sched := (List.perm_insertionSort _ _).mem_iff.mp he
        have hemap : e.2 ∈ st.sched.map (fun e => e.2) := List.mem_map_of_mem _ hesched
        rw [hsc] at hemap
        exact forall₂_mem_right hf e.2 hemap
      refine
        { hk := by rw [hup.1, hs2k]; exact hI.hk
          hstep := by rw [hup.2.1, hs2step]; exact hI.hstep
          hratio := by rw [hup.2.2.1, hs2ratio]; exact hI.hratio
          hds := by rw [hup.2.2.2.1, hs2ds]; exact hI.hds
          hplen := by rw [hup.2.2.2.2.1, hs2pri]; simp [hI.hplen]
          hbllen := by rw [hup.2.2.2.2.2.1, hs2bl]; simp [hI.hbllen]
          hbslen := by rw [hbsapp]; simp [hI.hbslen]
          hql := ?_, hdl := ?_, hwpos := ?_, hnd := ?_
          hquota := ?_, hbackup := ?_, hbs0 := ?_ }
      · intro t ht
        rw [hfilter_eq] at ht
        exact hql2 t (List.mem_filter.mp ht).1
      · intro t ht
        rw [hfilter_eq] at ht
        obtain ⟨hmem, hpred⟩ := List.mem_filter.mp ht
        obtain ⟨t0, ht0, rfl⟩ := hmem_ts2 t hmem
        have hdlmem : t0.deadline ∈ ds.drop i := hI.hdl t0 ht0
        have hne : s.deadlines.getD i 0 ≠ t0.deadline := by
          intro hcontra
          rw [setWindowQuotas_deadline] at hpred
          rw [hcontra] at hpred
          simp at hpred
        rw [setWindowQuotas_deadline]
        have hdrop : ds.drop i = ds[i] :: ds.drop (i + 1) := List.drop_eq_getElem_cons hi
        rw [hdrop] at hdlmem
        rcases List.mem_cons.mp hdlmem with hhd | htl
        · exfalso
          apply hne
          rw [hI.hds, List.getD_eq_getElem ds 0 hi, hhd]
        · exact htl
      · intro t ht
        rw [hfilter_eq] at ht
        obtain ⟨t0, ht0, rfl⟩ := hmem_ts2 t (List.mem_filter.mp ht).1
        rw [setWindowQuotas_weight]
        exact hI.hwpos t0 ht0
      · rw [hfilter_eq]
        exact nodup_ids_filter _ _ hnd2
      · -- QuotaProp for the extended primary schedule
        intro w e he
        rw [hup.2.2.2.2.1, hs2pri] at he
        rcases Nat.lt_trichotomy w i with hlt | rfl | hgt
        · rw [getD_append_lt _ _ _ _ (by rw [hI.hplen]; exact hlt)] at he
          exact hI.hquota w e he
        · have hlen : s.pri_schedule.length = w := hI.hplen
          rw [← hlen, getD_append_len] at he
          obtain ⟨a, haA, hmatch⟩ := hnewEntry e he
          have hats2 : a ∈ quotaPass s (windowLen s w) ts := hAperm.mem_iff.mp haA
          obtain ⟨t0, ht0, ha0⟩ := hmem_ts2 a hats2
          have hwl : t0.workload_quota.length = w := (hI.hql t0 ht0).1
          have hbl : t0.backup_workload_quota.length = w := (hI.hql t0 ht0).2
          have hwin : windowLen s w = windowLenDs ds w := by
            unfold windowLen
            rw [hI.hds]
          have hround : ∀ v : ℚ, roundUpTimeStep s v = roundUpStep step v := by
            intro v
            unfold roundUpTimeStep
            rw [hI.hstep]
          have hweq : e.2.weight = t0.weight := by
            rw [hmatch.2.2.1, ha0, setWindowQuotas_weight]
          refine ⟨?_, ?_, ?_⟩
          · unfold getWorkloadQuota
            rw [hmatch.2.2.2.1, ha0, setWindowQuotas_wq, ← hwl, getD_append_len]
            rw [hwl, hround, hwin, hweq]
          · unfold getBackupWorkloadQuota
            rw [hmatch.2.2.2.2, ha0, setWindowQuotas_bwq, ← hbl, getD_append_len]
            rw [hbl, hround, hwin, hweq, hI.hratio]
          · rw [hweq]
            exact hI.hwpos t0 ht0
        · rw [getD_len_le] at he
          · simp at he
          · simp only [List.length_append, List.length_singleton, hI.hplen]
            omega
      · -- BackupProp for the extended backup lists
        intro w
        rw [hup.2.2.2.2.2.1, hs2bl, hup.2.2.2.2.1, hs2pri]
        rcases Nat.lt_trichotomy w i with hlt | rfl | hgt
        · rw [getD_append_lt _ _ _ _ (by rw [hI.hbllen]; exact hlt),
            getD_append_lt _ _ _ _ (by rw [hI.hplen]; exact hlt)]
          exact hI.hbackup w
        · have hlenb : s.backup_list.length = w := hI.hbllen
          have hlenp : s.pri_schedule.length = w := hI.hplen
          rw [← hlenb, getD_append_len, hlenb, ← hlenp, getD_append_len, hlenp, hpk]
          constructor
          · -- non-increasing wq order
            have hsorted : List.Pairwise wqGE
                (List.insertionSort wqGE (quotaPass s (windowLen s w) ts)) :=
              List.sorted_insertionSort wqGE _
            have hlast : ∀ u ∈ List.insertionSort wqGE (quotaPass s (windowLen s w) ts),
                lastWQ u = getWorkloadQuota u w := by
              intro u hu
              have hl := (hql2 u (hAperm.mem_iff.mp hu)).1
              unfold lastWQ getWorkloadQuota
              rw [hl]
              simp
            have hpA : List.Pairwise
                (fun a b => getWorkloadQuota b w ≤ getWorkloadQuota a w)
                (List.insertionSort wqGE (quotaPass s (windowLen s w) ts)) := by
              apply List.Pairwise.imp_of_mem _ hsorted
              intro a b ha hb hr
              unfold wqGE at hr
              rw [hlast a ha, hlast b hb] at hr
              exact hr
            exact pairwise_wq_of_forall₂ w hf hpA
          · -- permutation with the window's primary tasks
            have hperm2 : (List.insertionSort schedKeyLE st.sched).Perm st.sched :=
              List.perm_insertionSort _ _
            have hmapperm : ((List.insertionSort schedKeyLE st.sched).map (fun e => e.2)).Perm
                (st.sched.map (fun e => e.2)) := hperm2.map _
            rw [hsc] at hmapperm
            exact hmapperm.symm
        · rw [getD_len_le, getD_len_le]
          · constructor
            · exact List.Pairwise.nil
            · simp
          · simp only [List.length_append, List.length_singleton, hI.hplen]
            omega
          · simp only [List.length_append, List.length_singleton, hI.hbllen]
            omega
      · -- backup_start with k = 0
        intro hk0
        rw [hbsapp, hI.hbs0 hk0]
        have hres : backupReserve s2 i = 0 := by
          apply backupReserve_k0
          rw [hs2k, hI.hk, hk0]
        rw [hres, hI.hds]
        rw [take_succ_getD ds i 0 hi]
        simp
  · exfalso
    have hfalse : (windowStep s i ts).1 = false := by
      simp [windowStep, hcap]
    rw [hs] at hfalse
    exact absurd hfalse (by simp)

theorem buildLoop_inv (k0 : ℕ) (step ratio : ℚ) (ds : List ℚ) :
    ∀ (n i : ℕ) (s : Scheduler) (ts : List Task),
      BuildInv k0 step ratio ds i s ts →
      i + n ≤ ds.length →
      (buildLoop s ts i n).1 = true →
      BuildInv k0 step ratio ds (i + n) (buildLoop s ts i n).2.1 (buildLoop s ts i n).2.2 := by
  intro n
  induction n with
  | zero =>
    intro i s ts hI _ _
    simpa [buildLoop] using hI
  | succ n ih =>
    intro i s ts hI hlen htrue
    rcases hw : windowStep s i ts with ⟨b, s2, ts2⟩
    cases b
    · exfalso
      have hfalse : (buildLoop s ts i (n + 1)).1 = false := by
        simp only [buildLoop, hw]
      rw [htrue] at hfalse
      exact absurd hfalse (by simp)
    · have hwtrue : (windowStep s i ts).1 = true := by rw [hw]
      have hI2 := windowStep_inv k0 step ratio ds i s ts hI (by omega) hwtrue
      rw [hw] at hI2
      have hbl : buildLoop s ts i (n + 1) = buildLoop s2 ts2 (i + 1) n := by
        simp only [buildLoop, hw]
      rw [hbl] at htrue ⊢
      have hres := ih (i + 1) s2 ts2 hI2 (by omega) htrue
      rw [show i + (n + 1) = (i + 1) + n by omega]
      exact hres

theorem generate_schedule_initInv (k m : ℕ) (frame timeStep ratio : ℚ)
    (tasksList : List Task)
    (hempty : ∀ t ∈ tasksList, t.workload_quota = [] ∧ t.backup_workload_quota = [])
    (hw : ∀ t ∈ tasksList, 0 < t.weight)
    (hnd : (tasksList.map Task.id).Nodup) :
    BuildInv k timeStep ratio
      (dedupAppend [] ((List.insertionSort deadlineLE tasksList).map Task.deadline)) 0
      (startScheduler k m frame timeStep ratio
        (dedupAppend [] ((List.insertionSort deadlineLE tasksList).map Task.deadline)))
      (List.insertionSort deadlineLE tasksList) := by
  have hperm : (List.insertionSort deadlineLE tasksList).Perm tasksList :=
    List.perm_insertionSort _ _
  refine
    { hk := rfl, hstep := rfl, hratio := rfl, hds := rfl
      hplen := rfl, hbllen := rfl, hbslen := rfl
      hql := ?_, hdl := ?_, hwpos := ?_, hnd := ?_
      hquota := ?_, hbackup := ?_, hbs0 := ?_ }
  · intro t ht
    have := hempty t (hperm.mem_iff.mp ht)
    rw [this.1, this.2]
    exact ⟨rfl, rfl⟩
  · intro t ht
    apply dedupAppend_mem
    exact Or.inr (List.mem_map_of_mem Task.deadline ht)
  · intro t ht
    exact hw t (hperm.mem_iff.mp ht)
  · exact (List.Perm.nodup_iff (hperm.map Task.id)).mpr hnd
  · intro w e he
    simp [startScheduler, List.getD] at he
  · intro w
    constructor
    · simp [startScheduler, List.getD]
    · simp [startScheduler, List.getD]
  · intro _
    rfl

theorem dedup_deadlines_chain (tasksList : List Task)
    (hpos : ∀ t ∈ tasksList, 0 < t.deadline) :
    List.Chain' (· < ·)
      (dedupAppend [] ((List.insertionSort deadlineLE tasksList).map Task.deadline))
    ∧ ∀ d ∈ dedupAppend [] ((List.insertionSort deadlineLE tasksList).map Task.deadline),
        0 < d := by
  have hperm : (List.insertionSort deadlineLE tasksList).Perm tasksList :=
    List.perm_insertionSort _ _
  constructor
  · apply dedupAppend_chain
    · have hsorted : List.Sorted deadlineLE (List.insertionSort deadlineLE tasksList) :=
        List.sorted_insertionSort deadlineLE tasksList
      exact List.pairwise_map.mpr hsorted
    · exact List.chain'_nil
    · intro a ha
      simp at ha
  · intro d hd
    rcases dedupAppend_subset d _ [] hd with h | h
    · simp at h
    · obtain ⟨t, ht, rfl⟩ := List.mem_map.mp h
      exact hpos t (hperm.mem_iff.mp ht)

/-- C4.  For every task t in the primary map of window w of a successful
build, the primary quota equals ceil(weight·len_w/Δ)·Δ, the backup quota
equals ceil(r·weight·len_w/Δ)·Δ, and both are at least Δ (the clamp of
roundUpTimeStep never fires for positive weights and window lengths). -/
theorem C4_quota_formula (k m : ℕ) (frame timeStep ratio : ℚ) (tasksList : List Task)
    (hstep : 0 < timeStep) (hratio : 0 < ratio)
    (hempty : ∀ t ∈ tasksList, t.workload_quota = [] ∧ t.backup_workload_quota = [])
    (htask : ∀ t ∈ tasksList, 0 < t.weight ∧ 0 < t.deadline)
    (hnd : (tasksList.map Task.id).Nodup)
    (hsucc : (generate_schedule k m frame timeStep ratio tasksList).1 = true) :
    ∀ w, ∀ e ∈ (generate_schedule k m frame timeStep ratio tasksList).2.1.pri_schedule.getD w [],
      getWorkloadQuota e.2 w
          = (⌈e.2.weight
              * windowLenDs (generate_schedule k m frame timeStep ratio tasksList).2.1.deadlines w
              / timeStep⌉ : ℚ) * timeStep
      ∧ getBackupWorkloadQuota e.2 w
          = (⌈ratio * e.2.weight
              * windowLenDs (generate_schedule k m frame timeStep ratio tasksList).2.1.deadlines w
              / timeStep⌉ : ℚ) * timeStep
      ∧ timeStep ≤ getWorkloadQuota e.2 w
      ∧ timeStep ≤ getBackupWorkloadQuota e.2 w := by
  have hinit := generate_schedule_initInv k m frame timeStep ratio tasksList hempty
    (fun t ht => (htask t ht).1) hnd
  have hchain := dedup_deadlines_chain tasksList (fun t ht => (htask t ht).2)
  simp only [generate_schedule] at hsucc ⊢
  have hfin := buildLoop_inv k timeStep ratio _ _ 0 _ _ hinit (by omega) hsucc
  intro w e he
  rw [hfin.hds]
  have hwlt : w < (dedupAppend []
      ((List.insertionSort deadlineLE tasksList).map Task.deadline)).length := by
    by_contra hge
    rw [getD_len_le] at he
    · simp at he
    · rw [hfin.hplen]
      omega
  obtain ⟨hwq, hbwq, hwpos⟩ := hfin.hquota w e he
  have hlen := windowLenDs_pos _ hchain.1 hchain.2 w hwlt
  have h1 := roundUpStep_of_pos timeStep (e.2.weight * windowLenDs
      (dedupAppend [] ((List.insertionSort deadlineLE tasksList).map Task.deadline)) w)
      hstep (mul_pos hwpos hlen)
  have h2 := roundUpStep_of_pos timeStep (ratio * e.2.weight * windowLenDs
      (dedupAppend [] ((List.insertionSort deadlineLE tasksList).map Task.deadline)) w)
      hstep (mul_pos (mul_pos hratio hwpos) hlen)
  refine ⟨?_, ?_, ?_, ?_⟩
  · rw [hwq, h1.1]
  · rw [hbwq, h2.1]
  · rw [hwq]; exact h1.2
  · rw [hbwq]; exact h2.2

/-- C4 witness: the formulas evaluated on the first entry of window 0 of the
scenario-3 run. -/
theorem C4_quota_formula_witness :
    getWorkloadQuota ((runC2.2.1.pri_schedule.getD 0 []).getD 0 dummyEntry).2 0
        = (⌈((runC2.2.1.pri_schedule.getD 0 []).getD 0 dummyEntry).2.weight
            * windowLenDs runC2.2.1.deadlines 0 / (1/100)⌉ : ℚ) * (1/100)
    ∧ getBackupWorkloadQuota ((runC2.2.1.pri_schedule.getD 0 []).getD 0 dummyEntry).2 0
        = (⌈(4/5) * ((runC2.2.1.pri_schedule.getD 0 []).getD 0 dummyEntry).2.weight
            * windowLenDs runC2.2.1.deadlines 0 / (1/100)⌉ : ℚ) * (1/100)
    ∧ (1/100 : ℚ) ≤ getWorkloadQuota ((runC2.2.1.pri_schedule.getD 0 []).getD 0 dummyEntry).2 0
    ∧ (1/100 : ℚ) ≤ getBackupWorkloadQuota
        ((runC2.2.1.pri_schedule.getD 0 []).getD 0 dummyEntry).2 0 := by
  have h := C4_quota_formula 1 1 200 (1/100) (4/5) tasksC2
    (by norm_num) (by norm_num)
    (by intro t ht; fin_cases ht <;> exact ⟨rfl, rfl⟩)
    (by intro t ht; fin_cases ht <;> constructor <;> norm_num [tasksC2])
    (by decide)
    (by with_unfolding_all decide)
  exact h 0 ((runC2.2.1.pri_schedule.getD 0 []).getD 0 dummyEntry)
    (by with_unfolding_all decide)

/-- C5.  Counterexample to the claim: a run that fails in window 1 leaves the
committed window-0 backup list (and schedule) in the scheduler state. -/
theorem C5_partial_commit :
    runPartial.1 = false ∧ runPartial.2.1.backup_list ≠ [] := by
  with_unfolding_all decide

/-- C5 (amended).  On success every window is fully committed: the scheduler
holds exactly one primary map, one backup list and one backup start per
window.  On failure the source returns with the state of the already
processed windows left in place (see the counterexample), so failure is not
atomic. -/
theorem C5_success_fully_committed (k m : ℕ) (frame timeStep ratio : ℚ)
    (tasksList : List Task)
    (hempty : ∀ t ∈ tasksList, t.workload_quota = [] ∧ t.backup_workload_quota = [])
    (hw : ∀ t ∈ tasksList, 0 < t.weight)
    (hnd : (tasksList.map Task.id).Nodup)
    (hsucc : (generate_schedule k m frame timeStep ratio tasksList).1 = true) :
    (generate_schedule k m frame timeStep ratio tasksList).2.1.pri_schedule.length
        = (generate_schedule k m frame timeStep ratio tasksList).2.1.deadlines.length
    ∧ (generate_schedule k m frame timeStep ratio tasksList).2.1.backup_list.length
        = (generate_schedule k m frame timeStep ratio tasksList).2.1.deadlines.length
    ∧ (generate_schedule k m frame timeStep ratio tasksList).2.1.backup_start.length
        = (generate_schedule k m frame timeStep ratio tasksList).2.1.deadlines.length := by
  have hinit := generate_schedule_initInv k m frame timeStep ratio tasksList hempty hw hnd
  simp only [generate_schedule] at hsucc ⊢
  have hfin := buildLoop_inv k timeStep ratio _ _ 0 _ _ hinit (by omega) hsucc
  rw [hfin.hds]
  refine ⟨?_, ?_, ?_⟩
  · rw [hfin.hplen]; simp
  · rw [hfin.hbllen]; simp
  · rw [hfin.hbslen]; simp

/-- C5 witness: the scenario-3 run commits both windows completely. -/
theorem C5_success_fully_committed_witness :
    runC2.2.1.pri_schedule.length = runC2.2.1.deadlines.length
    ∧ runC2.2.1.backup_list.length = runC2.2.1.deadlines.length
    ∧ runC2.2.1.backup_start.length = runC2.2.1.deadlines.length := by
  have h := C5_success_fully_committed 1 1 200 (1/100) (4/5) tasksC2
    (by intro t ht; fin_cases ht <;> exact ⟨rfl, rfl⟩)
    (by intro t ht; fin_cases ht <;> norm_num [tasksC2])
    (by decide)
    (by with_unfolding_all decide)
  exact h

/-- C7.  For every successful build, each window's backup list is in
non-increasing order of that window's primary workload quota, and holds
exactly the tasks of the window's primary map (the LP-packed tasks), as a
permutation. -/
theorem C7_backup_list_order (k m : ℕ) (frame timeStep ratio : ℚ)
    (tasksList : List Task)
    (hempty : ∀ t ∈ tasksList, t.workload_quota = [] ∧ t.backup_workload_quota = [])
    (hw : ∀ t ∈ tasksList, 0 < t.weight)
    (hnd : (tasksList.map Task.id).Nodup)
    (hsucc : (generate_schedule k m frame timeStep ratio tasksList).1 = true) :
    ∀ w,
      List.Pairwise (fun a b => getWorkloadQuota b w ≤ getWorkloadQuota a w)
        ((generate_schedule k m frame timeStep ratio tasksList).2.1.backup_list.getD w [])
      ∧ ((generate_schedule k m frame timeStep ratio tasksList).2.1.backup_list.getD w []).Perm
          (((generate_schedule k m frame timeStep ratio tasksList).2.1.pri_schedule.getD w []).map
            (fun e => e.2)) := by
  have hinit := generate_schedule_initInv k m frame timeStep ratio tasksList hempty hw hnd
  simp only [generate_schedule] at hsucc ⊢
  have hfin := buildLoop_inv k timeStep ratio _ _ 0 _ _ hinit (by omega) hsucc
  exact hfin.hbackup

/-- C7 witness: the window-0 backup list of the scenario-3 run. -/
theorem C7_backup_list_order_witness :
    List.Pairwise (fun a b => getWorkloadQuota b 0 ≤ getWorkloadQuota a 0)
      (runC2.2.1.backup_list.getD 0 [])
    ∧ (runC2.2.1.backup_list.getD 0 []).Perm
        ((runC2.2.1.pri_schedule.getD 0 []).map (fun e => e.2)) := by
  have h := C7_backup_list_order 1 1 200 (1/100) (4/5) tasksC2
    (by intro t ht; fin_cases ht <;> exact ⟨rfl, rfl⟩)
    (by intro t ht; fin_cases ht <;> norm_num [tasksC2])
    (by decide)
    (by with_unfolding_all decide)
  exact h 0

/-- C10.  generate_schedule first sorts the caller's list by ascending
deadline, and each window retires exactly the tasks whose deadline equals
the window deadline; on success the caller's list has become empty. -/
theorem C10_tasksList_emptied (k m : ℕ) (frame timeStep ratio : ℚ)
    (tasksList : List Task)
    (hempty : ∀ t ∈ tasksList, t.workload_quota = [] ∧ t.backup_workload_quota = [])
    (hw : ∀ t ∈ tasksList, 0 < t.weight)
    (hnd : (tasksList.map Task.id).Nodup)
    (hsucc : (generate_schedule k m frame timeStep ratio tasksList).1 = true) :
    List.Sorted deadlineLE (List.insertionSort deadlineLE tasksList)
    ∧ (generate_schedule k m frame timeStep ratio tasksList).2.2 = [] := by
  have hinit := generate_schedule_initInv k m frame timeStep ratio tasksList hempty hw hnd
  refine ⟨List.sorted_insertionSort deadlineLE tasksList, ?_⟩
  simp only [generate_schedule] at hsucc ⊢
  have hfin := buildLoop_inv k timeStep ratio _ _ 0 _ _ hinit (by omega) hsucc
  have hdl := hfin.hdl
  rw [List.eq_nil_iff_forall_not_mem]
  intro t ht
  have := hdl t ht
  rw [Nat.zero_add, List.drop_length] at this
  simp at this

/-- C10 witness: the scenario-3 run returns with an empty caller's list. -/
theorem C10_tasksList_emptied_witness :
    List.Sorted deadlineLE (List.insertionSort deadlineLE tasksC2)
    ∧ (generate_schedule 1 1 200 (1/100) (4/5) tasksC2).2.2 = [] := by
  have h := C10_tasksList_emptied 1 1 200 (1/100) (4/5) tasksC2
    (by intro t ht; fin_cases ht <;> exact ⟨rfl, rfl⟩)
    (by intro t ht; fin_cases ht <;> norm_num [tasksC2])
    (by decide)
    (by with_unfolding_all decide)
  exact h

theorem markFaultScan_spec (i : ℕ) (ft : ℚ) :
    ∀ (sched sched2 : List ((ℚ × ℕ) × Task)),
      markFaultScan i ft sched = some sched2 →
      ((sched2.filter (fun e => e.2.encountered_fault)).length
          = (sched.filter (fun e => e.2.encountered_fault)).length + 1)
      ∧ sched2.length = sched.length
      ∧ ((∀ e ∈ sched, e.2.encountered_fault = true →
            0 ≤ e.2.relative_fault_time ∧ e.2.relative_fault_time ≤ getWorkloadQuota e.2 i) →
         ∀ e ∈ sched2, e.2.encountered_fault = true →
            0 ≤ e.2.relative_fault_time ∧ e.2.relative_fault_time ≤ getWorkloadQuota e.2 i) := by
  intro sched
  induction sched with
  | nil =>
    intro sched2 h
    simp [markFaultScan] at h
  | cons e rest ih =>
    intro sched2 h
    obtain ⟨key, t⟩ := e
    rw [markFaultScan] at h
    by_cases hg : key.1 ≤ ft ∧ ft ≤ key.1 + getWorkloadQuota t i
    · rw [if_pos hg] at h
      by_cases hfault : t.encountered_fault = true
      · rw [if_pos hfault] at h
        rcases hrest : markFaultScan i ft rest with _ | rest2
        · rw [hrest] at h
          simp at h
        · rw [hrest] at h
          have hsched2 : sched2 = (key, t) :: rest2 := (Option.some_inj.mp h).symm
          obtain ⟨hc, hl, hpres⟩ := ih rest2 hrest
          subst hsched2
          refine ⟨?_, by simp [hl], ?_⟩
          · simp only [List.filter_cons, hfault]
            simp [hc]
          · intro hP e2 he2 hf2
            rcases List.mem_cons.mp he2 with rfl | htail
            · exact hP _ (List.mem_cons_self _ _) hf2
            · exact hpres (fun e3 he3 => hP e3 (List.mem_cons_of_mem _ he3)) e2 htail hf2
      · rw [if_neg hfault] at h
        have hsched2 : sched2
            = (key, { t with encountered_fault := true, relative_fault_time := ft - key.1 })
              :: rest := (Option.some_inj.mp h).symm
        subst hsched2
        have hfneg : t.encountered_fault = false := by
          cases hv : t.encountered_fault
          · rfl
          · exact absurd hv hfault
        refine ⟨?_, by simp, ?_⟩
        · simp only [List.filter_cons, hfneg]
          simp
        · intro hP e2 he2 hf2
          rcases List.mem_cons.mp he2 with rfl | htail
          · constructor
            · show (0 : ℚ) ≤ ft - key.1
              linarith [hg.1]
            · show ft - key.1 ≤ getWorkloadQuota t i
              linarith [hg.2]
          · exact hP e2 (List.mem_cons_of_mem _ htail) hf2
    · rw [if_neg hg] at h
      rcases hrest : markFaultScan i ft rest with _ | rest2
      · rw [hrest] at h
        simp at h
      · rw [hrest] at h
        have hsched2 : sched2 = (key, t) :: rest2 := (Option.some_inj.mp h).symm
        obtain ⟨hc, hl, hpres⟩ := ih rest2 hrest
        subst hsched2
        refine ⟨?_, by simp [hl], ?_⟩
        · simp only [List.filter_cons]
          cases hv : t.encountered_fault <;> simp [hv, hc]
        · intro hP e2 he2 hf2
          rcases List.mem_cons.mp he2 with rfl | htail
          · exact hP _ (List.mem_cons_self _ _) hf2
          · exact hpres (fun e3 he3 => hP e3 (List.mem_cons_of_mem _ he3)) e2 htail hf2

theorem genFaultsAux_spec (step sw : ℚ) (i : ℕ) :
    ∀ (rands : List ℕ) (f : ℕ) (sched sched2 : List ((ℚ × ℕ) × Task)) (rands2 : List ℕ),
      genFaultsAux step sw i f rands sched = some (sched2, rands2) →
      ((sched2.filter (fun e => e.2.encountered_fault)).length
          = (sched.filter (fun e => e.2.encountered_fault)).length + f)
      ∧ sched2.length = sched.length
      ∧ ((∀ e ∈ sched, e.2.encountered_fault = true →
            0 ≤ e.2.relative_fault_time ∧ e.2.relative_fault_time ≤ getWorkloadQuota e.2 i) →
         ∀ e ∈ sched2, e.2.encountered_fault = true →
            0 ≤ e.2.relative_fault_time ∧ e.2.relative_fault_time ≤ getWorkloadQuota e.2 i) := by
  intro rands
  induction rands with
  | nil =>
    intro f sched sched2 rands2 h
    cases f with
    | zero =>
      rw [genFaultsAux] at h
      obtain ⟨h1, h2⟩ := Prod.mk.injEq .. ▸ Option.some_inj.mp h
      subst h1
      exact ⟨by simp, rfl, fun hP => hP⟩
    | succ f2 =>
      rw [genFaultsAux] at h
      simp at h
  | cons r rest ih =>
    intro f sched sched2 rands2 h
    cases f with
    | zero =>
      rw [genFaultsAux] at h
      obtain ⟨h1, h2⟩ := Prod.mk.injEq .. ▸ Option.some_inj.mp h
      subst h1
      exact ⟨by simp, rfl, fun hP => hP⟩
    | succ f2 =>
      rw [genFaultsAux] at h
      rcases hm : markFaultScan i (step * (r : ℚ) + sw) sched with _ | schedM
      · rw [hm] at h
        exact ih (f2 + 1) sched sched2 rands2 h
      · rw [hm] at h
        obtain ⟨hc1, hl1, hp1⟩ := markFaultScan_spec i _ sched schedM hm
        obtain ⟨hc2, hl2, hp2⟩ := ih f2 schedM sched2 rands2 h
        exact ⟨by omega, hl2.trans hl1, fun hP => hp2 (hp1 hP)⟩

/-- C6.  A completed fault-generation pass for window idx marks exactly
min(k, |primary_map_idx|) entries of the window's primary map (all initially
unmarked, so these are distinct tasks each carrying one fault), and every
marked task's relative fault time lies in [0, wq_idx(task)].  Completion of
the source's unbounded resampling loop is modelled by the sample stream
sufficing (the `some` hypothesis). -/
theorem C6_fault_injection (s : Scheduler) (idx : ℕ) (rands : List ℕ)
    (s2 : Scheduler) (rands2 : List ℕ)
    (hlt : idx < s.pri_schedule.length)
    (hinit : ∀ e ∈ s.pri_schedule.getD idx [], e.2.encountered_fault = false)
    (h : generate_fault_occurrences s idx rands = some (s2, rands2)) :
    ((s2.pri_schedule.getD idx []).filter (fun e => e.2.encountered_fault)).length
        = min s.k (s.pri_schedule.getD idx []).length
    ∧ (s2.pri_schedule.getD idx []).length = (s.pri_schedule.getD idx []).length
    ∧ ∀ e ∈ s2.pri_schedule.getD idx [], e.2.encountered_fault = true →
        0 ≤ e.2.relative_fault_time ∧ e.2.relative_fault_time ≤ getWorkloadQuota e.2 idx := by
  unfold generate_fault_occurrences at h
  rcases hg : genFaultsAux s.time_step (windowStart s idx) idx
      (min s.k (s.pri_schedule.getD idx []).length) rands (s.pri_schedule.getD idx [])
      with _ | p
  · simp only [hg] at h
    exact absurd h (by simp)
  · rcases p with ⟨schedF, randsF⟩
    simp only [hg, Option.some_inj, Prod.mk.injEq] at h
    obtain ⟨hs2, hr2⟩ := h
    obtain ⟨hc, hl, hp⟩ := genFaultsAux_spec s.time_step (windowStart s idx) idx
        rands _ _ schedF randsF hg
    have hget : s2.pri_schedule.getD idx [] = schedF := by
      rw [← hs2]
      exact getD_set_self _ _ _ _ hlt
    rw [hget]
    have hzero : (s.pri_schedule.getD idx []).filter (fun e => e.2.encountered_fault) = [] := by
      apply List.filter_eq_nil.mpr
      intro e he
      rw [hinit e he]
      simp
    refine ⟨?_, hl, ?_⟩
    · rw [hc, hzero]
      simp
    · apply hp
      intro e he hf
      rw [hinit e he] at hf
      exact absurd hf (by simp)

theorem update_BB_set (s : Scheduler) (idx : ℕ) (t : ℚ)
    (h : idx < s.backup_start.length) :
    (update_BB_overloading s idx t).backup_start
      = s.backup_start.set idx (max t (s.deadlines.getD idx 0 - backupReserve s idx)) := by
  unfold update_BB_overloading
  simp [Nat.not_le.mpr h]

theorem update_BB_bs0_pres (s : Scheduler) (idx : ℕ) (t : ℚ) (hk : s.k = 0)
    (hlen : s.deadlines.length ≤ s.backup_start.length)
    (hbs : ∀ j, s.deadlines.getD j 0 ≤ s.backup_start.getD j 0) :
    s.deadlines.length ≤ (update_BB_overloading s idx t).backup_start.length
    ∧ ∀ j, s.deadlines.getD j 0 ≤ (update_BB_overloading s idx t).backup_start.getD j 0 := by
  have hres : backupReserve s idx = 0 := backupReserve_k0 s idx hk
  by_cases hb : s.backup_start.length ≤ idx
  · rw [update_BB_append s idx t hb, hres, sub_zero]
    constructor
    · simp
      omega
    · intro j
      rcases Nat.lt_trichotomy j s.backup_start.length with hj | hj | hj
      · rw [getD_append_lt _ _ _ _ hj]
        exact hbs j
      · subst hj
        rw [getD_append_len]
        rw [getD_len_le s.deadlines _ 0 (by omega), getD_len_le s.deadlines idx 0 (by omega)]
      · rw [getD_len_le s.deadlines j 0 (by omega),
            getD_len_le (s.backup_start ++ [s.deadlines.getD idx 0]) j 0
              (by simp only [List.length_append, List.length_singleton]; omega)]
  · have hb2 : idx < s.backup_start.length := Nat.not_le.mp hb
    rw [update_BB_set s idx t hb2, hres, sub_zero]
    constructor
    · simp
      omega
    · intro j
      by_cases hj : idx = j
      · subst hj
        rw [getD_set_self _ _ _ _ hb2]
        exact le_max_right t _
      · rw [getD_set_ne _ _ _ _ _ hj]
        exact hbs j

theorem remove_pres (s : Scheduler) (idx taskId : ℕ) (t : ℚ) :
    (remove_from_backup_list s idx taskId t).k = s.k
    ∧ (remove_from_backup_list s idx taskId t).time_step = s.time_step
    ∧ (remove_from_backup_list s idx taskId t).deadlines = s.deadlines := by
  simp only [remove_from_backup_list]
  refine ⟨?_, ?_, ?_⟩
  · rw [(update_BB_parts _ idx t).1]
  · rw [(update_BB_parts _ idx t).2.1]
  · rw [(update_BB_parts _ idx t).2.2.2.1]

theorem remove_inv0 (s : Scheduler) (idx taskId : ℕ) (t : ℚ) (h : SchedInv0 s) :
    SchedInv0 (remove_from_backup_list s idx taskId t) := by
  obtain ⟨hk, hlen, hbs⟩ := h
  have hpre := remove_pres s idx taskId t
  simp only [remove_from_backup_list] at hpre ⊢
  have h2 := update_BB_bs0_pres
    { s with backup_list := (s.backup_list.set idx ((s.backup_list.getD idx []).filter (fun b => b.id != taskId))) }
    idx t hk hlen hbs
  exact ⟨by rw [hpre.1, hk], by rw [hpre.2.2]; exact h2.1, by rw [hpre.2.2]; exact h2.2⟩

theorem gfo_parts (s : Scheduler) (idx : ℕ) (rands : List ℕ) (s2 : Scheduler)
    (rands2 : List ℕ) (h : generate_fault_occurrences s idx rands = some (s2, rands2)) :
    s2.k = s.k ∧ s2.time_step = s.time_step ∧ s2.deadlines = s.deadlines
    ∧ s2.backup_start = s.backup_start := by
  unfold generate_fault_occurrences at h
  rcases hg : genFaultsAux s.time_step (windowStart s idx) idx
      (min s.k (s.pri_schedule.getD idx []).length) rands (s.pri_schedule.getD idx [])
      with _ | p
  · simp only [hg] at h
    exact absurd h (by simp)
  · rcases p with ⟨schedF, randsF⟩
    simp only [hg, Option.some_inj, Prod.mk.injEq] at h
    rw [← h.1]
    exact ⟨rfl, rfl, rfl, rfl⟩

theorem accrue_pres (st : SimSt) (hhp : st.hp_assigned = none) :
    (accrueActive st).hp_assigned = none
    ∧ (accrueActive st).sch = st.sch
    ∧ (accrueActive st).hp_active = st.hp_active
    ∧ (accrueActive st).sim_time = st.sim_time
    ∧ (accrueActive st).keys = st.keys := by
  unfold accrueActive
  refine ⟨hhp, rfl, ?_, rfl, rfl⟩
  rw [hhp]
  simp

theorem lpSweepStep_pres (i : ℕ) (st : SimSt) (lp : ℕ)
    (hhp : st.hp_assigned = none) (hinv : SchedInv0 st.sch) :
    (lpSweepStep i st lp).hp_assigned = none
    ∧ SchedInv0 (lpSweepStep i st lp).sch
    ∧ (lpSweepStep i st lp).hp_active = st.hp_active
    ∧ (lpSweepStep i st lp).sim_time = st.sim_time
    ∧ (lpSweepStep i st lp).sch.deadlines = st.sch.deadlines
    ∧ (lpSweepStep i st lp).sch.time_step = st.sch.time_step
    ∧ (lpSweepStep i st lp).keys = st.keys := by
  unfold lpSweepStep
  split
  · exact ⟨hhp, hinv, rfl, rfl, rfl, rfl, rfl⟩
  · next t heq =>
    by_cases hdone : st.sim_time ≥ t.start_time + getWorkloadQuota t i
    · rw [if_pos hdone]
      by_cases hfault : t.encountered_fault = true
      · rw [if_pos hfault]
        exact ⟨hhp, hinv, rfl, rfl, rfl, rfl, rfl⟩
      · rw [if_neg hfault, hhp]
        exact ⟨rfl, remove_inv0 _ _ _ _ hinv, rfl, rfl,
          (remove_pres _ _ _ _).2.2, (remove_pres _ _ _ _).2.1, rfl⟩
    · rw [if_neg hdone]
      exact ⟨hhp, hinv, rfl, rfl, rfl, rfl, rfl⟩

theorem lpSweepFold_pres (i : ℕ) :
    ∀ (L : List ℕ) (st : SimSt),
      st.hp_assigned = none → SchedInv0 st.sch →
      (L.foldl (lpSweepStep i) st).hp_assigned = none
      ∧ SchedInv0 (L.foldl (lpSweepStep i) st).sch
      ∧ (L.foldl (lpSweepStep i) st).hp_active = st.hp_active
      ∧ (L.foldl (lpSweepStep i) st).sim_time = st.sim_time
      ∧ (L.foldl (lpSweepStep i) st).sch.deadlines = st.sch.deadlines
      ∧ (L.foldl (lpSweepStep i) st).sch.time_step = st.sch.time_step
      ∧ (L.foldl (lpSweepStep i) st).keys = st.keys := by
  intro L
  induction L with
  | nil =>
    intro st hhp hinv
    exact ⟨hhp, hinv, rfl, rfl, rfl, rfl, rfl⟩
  | cons lp rest ih =>
    intro st hhp hinv
    rw [List.foldl_cons]
    obtain ⟨h1, h2, h3, h4, h5, h6, h7⟩ := lpSweepStep_pres i st lp hhp hinv
    obtain ⟨g1, g2, g3, g4, g5, g6, g7⟩ := ih (lpSweepStep i st lp) h1 h2
    exact ⟨g1, g2, g3.trans h3, g4.trans h4, g5.trans h5, g6.trans h6, g7.trans h7⟩

theorem hpComplete_none (i : ℕ) (st : SimSt) (hhp : st.hp_assigned = none) :
    hpComplete i st = st := by
  unfold hpComplete
  rw [hhp]

theorem dispatchStale_pres (i c tid : ℕ) (st : SimSt)
    (hhp : st.hp_assigned = none) (hinv : SchedInv0 st.sch) :
    (dispatchStale i c tid st).hp_assigned = none
    ∧ SchedInv0 (dispatchStale i c tid st).sch
    ∧ (dispatchStale i c tid st).hp_active = st.hp_active
    ∧ (dispatchStale i c tid st).sim_time = st.sim_time
    ∧ (dispatchStale i c tid st).sch.deadlines = st.sch.deadlines
    ∧ (dispatchStale i c tid st).sch.time_step = st.sch.time_step := by
  unfold dispatchStale
  split
  · next u heq =>
    by_cases hstale : u.id ≠ tid ∧ u.encountered_fault = false
    · rw [if_pos hstale, hhp]
      exact ⟨rfl, remove_inv0 _ _ _ _ hinv, rfl, rfl,
        (remove_pres _ _ _ _).2.2, (remove_pres _ _ _ _).2.1⟩
    · rw [if_neg hstale]
      exact ⟨hhp, hinv, rfl, rfl, rfl, rfl⟩
  · exact ⟨hhp, hinv, rfl, rfl, rfl, rfl⟩

theorem dispatchAssign_pres (c : ℕ) (t : Task) (st : SimSt) :
    (dispatchAssign c t st).hp_assigned = st.hp_assigned
    ∧ (dispatchAssign c t st).sch = st.sch
    ∧ (dispatchAssign c t st).hp_active = st.hp_active
    ∧ (dispatchAssign c t st).sim_time = st.sim_time := by
  unfold dispatchAssign
  split
  · exact ⟨rfl, rfl, rfl, rfl⟩
  · next u heq =>
    by_cases hid : u.id ≠ t.id
    · rw [if_pos hid]
      exact ⟨rfl, rfl, rfl, rfl⟩
    · rw [if_neg hid]
      exact ⟨rfl, rfl, rfl, rfl⟩

theorem dispatchLoop_pres (i : ℕ) :
    ∀ (pend : List ((ℚ × ℕ) × Task)) (st : SimSt),
      st.hp_assigned = none → SchedInv0 st.sch →
      (dispatchLoop i pend st).hp_assigned = none
      ∧ SchedInv0 (dispatchLoop i pend st).sch
      ∧ (dispatchLoop i pend st).hp_active = st.hp_active
      ∧ (dispatchLoop i pend st).sim_time = st.sim_time
      ∧ (dispatchLoop i pend st).sch.deadlines = st.sch.deadlines
      ∧ (dispatchLoop i pend st).sch.time_step = st.sch.time_step := by
  intro pend
  induction pend with
  | nil =>
    intro st hhp hinv
    exact ⟨hhp, hinv, rfl, rfl, rfl, rfl⟩
  | cons e rest ih =>
    intro st hhp hinv
    rw [dispatchLoop]
    by_cases hdue : st.sim_time ≥ e.1.1
    · rw [if_pos hdue]
      obtain ⟨s1, s2, s3, s4, s5, s6⟩ := dispatchStale_pres i e.1.2 e.2.id st hhp hinv
      obtain ⟨a1, a2, a3, a4⟩ := dispatchAssign_pres e.1.2 e.2 (dispatchStale i e.1.2 e.2.id st)
      obtain ⟨g1, g2, g3, g4, g5, g6⟩ := ih (dispatchAssign e.1.2 e.2 (dispatchStale i e.1.2 e.2.id st))
        (a1.trans s1) (a2 ▸ s2)
      refine ⟨g1, g2, ?_, ?_, ?_, ?_⟩
      · rw [g3, a3, s3]
      · rw [g4, a4, s4]
      · rw [g5, a2, s5]
      · rw [g6, a2, s6]
    · rw [if_neg hdue]
      exact ⟨hhp, hinv, rfl, rfl, rfl, rfl⟩

theorem hpDispatch_pres (i : ℕ) (st : SimSt) (hhp : st.hp_assigned = none) :
    (hpDispatch i st).hp_active = st.hp_active
    ∧ (hpDispatch i st).sim_time = st.sim_time
    ∧ (hpDispatch i st).sch = st.sch
    ∧ ((hpDispatch i st).hp_assigned = none ∨ st.sch.backup_start.getD i 0 ≤ st.sim_time) := by
  unfold hpDispatch
  by_cases hg : st.sim_time ≥ st.sch.backup_start.getD i 0
  · rw [if_pos hg]
    split
    · exact ⟨rfl, rfl, rfl, Or.inl rfl⟩
    · rw [hhp]
      exact ⟨rfl, rfl, rfl, Or.inr hg⟩
  · rw [if_neg hg]
    exact ⟨rfl, rfl, rfl, Or.inl hhp⟩

theorem simStep_pres (i : ℕ) (st : SimSt) (hhp : st.hp_assigned = none)
    (hinv : SchedInv0 st.sch) :
    (simStep i st).hp_active = st.hp_active
    ∧ SchedInv0 (simStep i st).sch
    ∧ (simStep i st).sch.deadlines = st.sch.deadlines
    ∧ (simStep i st).sch.time_step = st.sch.time_step
    ∧ (simStep i st).sim_time = st.sim_time + st.sch.time_step
    ∧ ((simStep i st).hp_assigned = none ∨ st.sch.deadlines.getD i 0 ≤ st.sim_time) := by
  simp only [simStep, lpSweep]
  obtain ⟨c1, c2, c3, c4, c5⟩ := accrue_pres st hhp
  obtain ⟨w1, w2, w3, w4, w5, w6, w7⟩ := lpSweepFold_pres i
    (List.range (accrueActive st).lp_assigned.length) (accrueActive st) c1 (c2 ▸ hinv)
  rw [hpComplete_none i _ w1]
  obtain ⟨d1, d2, d3, d4, d5, d6⟩ := dispatchLoop_pres i
    ((List.range (accrueActive st).lp_assigned.length).foldl (lpSweepStep i) (accrueActive st)).keys
    ((List.range (accrueActive st).lp_assigned.length).foldl (lpSweepStep i) (accrueActive st))
    w1 w2
  obtain ⟨p1, p2, p3, p4⟩ := hpDispatch_pres i
    (dispatchLoop i
      ((List.range (accrueActive st).lp_assigned.length).foldl (lpSweepStep i) (accrueActive st)).keys
      ((List.range (accrueActive st).lp_assigned.length).foldl (lpSweepStep i) (accrueActive st)))
    d1
  refine ⟨?_, ?_, ?_, ?_, ?_, ?_⟩
  · rw [p1, d3, w3, c3]
  · rw [p3]
    exact d2
  · rw [p3, d5, w5, c2]
  · rw [p3, d6, w6, c2]
  · rw [p2, d4, w4, c4, p3, d6, w6, c2]
  · rcases p4 with h | h
    · exact Or.inl h
    · right
      have h2 := le_trans (d2.2.2 i) h
      rw [d5, w5, c2, d4, w4, c4] at h2
      exact h2

theorem simWindow_pres (i : ℕ) (d : ℚ) :
    ∀ (fuel : ℕ) (st : SimSt),
      st.hp_assigned = none → SchedInv0 st.sch → 0 < st.sch.time_step →
      d ≤ st.sch.deadlines.getD i 0 →
      (simWindow i d fuel st).hp_active = st.hp_active
      ∧ SchedInv0 (simWindow i d fuel st).sch
      ∧ (simWindow i d fuel st).sch.time_step = st.sch.time_step := by
  intro fuel
  induction fuel with
  | zero =>
    intro st h1 h2 h3 h4
    exact ⟨rfl, h2, rfl⟩
  | succ fuel ih =>
    intro st h1 h2 h3 h4
    rw [simWindow]
    by_cases hle : st.sim_time ≤ d
    · rw [if_pos hle]
      obtain ⟨p1, p2, p3, p4, p5, p6⟩ := simStep_pres i st h1 h2
      rcases p6 with hnone | hpast
      · obtain ⟨g1, g2, g3⟩ := ih (simStep i st) hnone p2
          (by rw [p4]; exact h3) (by rw [p3]; exact h4)
        exact ⟨g1.trans p1, g2, g3.trans p4⟩
      · have hgt : ¬ (simStep i st).sim_time ≤ d := by
          rw [p5]
          have hdle : d ≤ st.sim_time := le_trans h4 hpast
          linarith
        cases fuel with
        | zero =>
          exact ⟨p1, p2, p4⟩
        | succ fuel2 =>
          rw [simWindow, if_neg hgt]
          exact ⟨p1, p2, p4⟩
    · rw [if_neg hle]
      exact ⟨rfl, h2, rfl⟩

theorem resetSchedule_parts (sch : Scheduler) (i : ℕ) :
    (resetSchedule sch i).k = sch.k
    ∧ (resetSchedule sch i).time_step = sch.time_step
    ∧ (resetSchedule sch i).deadlines = sch.deadlines
    ∧ (resetSchedule sch i).backup_start = sch.backup_start := by
  exact ⟨rfl, rfl, rfl, rfl⟩

theorem simulateLoop_pres (m fuel : ℕ) :
    ∀ (ws rands : List ℕ) (st st2 : SimSt),
      SchedInv0 st.sch → 0 < st.sch.time_step →
      simulateLoop m fuel ws rands st = some st2 →
      st2.hp_active = st.hp_active := by
  intro ws
  induction ws with
  | nil =>
    intro rands st st2 h1 h2 h
    rw [simulateLoop] at h
    rw [← Option.some_inj.mp h]
  | cons i rest ih =>
    intro rands st st2 h1 h2 h
    rw [simulateLoop] at h
    rcases hrun : simWindowRun m fuel rands st i with _ | p
    · rw [hrun] at h
      exact absurd h (by simp)
    · rcases p with ⟨stW, randsW⟩
      rw [hrun] at h
      unfold simWindowRun at hrun
      rcases hg : generate_fault_occurrences (resetSchedule st.sch i) i rands with _ | q
      · rw [hg] at hrun
        exact absurd hrun (by simp)
      · rcases q with ⟨sch2, rands2⟩
        rw [hg] at hrun
        simp only [Option.some_inj, Prod.mk.injEq] at hrun
        obtain ⟨hstW, hrandsW⟩ := hrun
        have hparts := gfo_parts _ _ _ _ _ hg
        have hreset := resetSchedule_parts st.sch i
        have hk2 : sch2.k = st.sch.k := by rw [hparts.1, hreset.1]
        have hts2 : sch2.time_step = st.sch.time_step := by rw [hparts.2.1, hreset.2.1]
        have hds2 : sch2.deadlines = st.sch.deadlines := by rw [hparts.2.2.1, hreset.2.2.1]
        have hbs2 : sch2.backup_start = st.sch.backup_start := by
          rw [hparts.2.2.2, hreset.2.2.2]
        have hinv2 : SchedInv0 sch2 := by
          refine ⟨by rw [hk2]; exact h1.1, ?_, ?_⟩
          · rw [hds2, hbs2]
            exact h1.2.1
          · intro j
            rw [hds2, hbs2]
            exact h1.2.2 j
        obtain ⟨g1, g2, g3⟩ := simWindow_pres i (sch2.deadlines.getD i 0) fuel
          { sch := sch2, lp_assigned := List.replicate m none, hp_assigned := none
            keys := sch2.pri_schedule.getD i [], sim_time := st.sim_time
            lp_active := st.lp_active, hp_active := st.hp_active }
          rfl hinv2 (by show 0 < sch2.time_step; rw [hts2]; exact h2) (le_refl _)
        rw [← hstW] at h
        have hrec := ih randsW _ st2 g2 (by rw [g3]; show 0 < sch2.time_step; rw [hts2]; exact h2) h
        rw [hrec, g1]

/-- C8.  With k = 0 and a successful build: every window's backup
reservation is zero, every window's backup start equals the window deadline,
and any simulation run of the schedule accrues no HP-core active duration. -/
theorem C8_k0_no_backup (m : ℕ) (frame timeStep ratio : ℚ) (tasksList : List Task)
    (hstep : 0 < timeStep)
    (hempty : ∀ t ∈ tasksList, t.workload_quota = [] ∧ t.backup_workload_quota = [])
    (hw : ∀ t ∈ tasksList, 0 < t.weight)
    (hnd : (tasksList.map Task.id).Nodup)
    (hsucc : (generate_schedule 0 m frame timeStep ratio tasksList).1 = true) :
    (∀ w, backupReserve (generate_schedule 0 m frame timeStep ratio tasksList).2.1 w = 0)
    ∧ (generate_schedule 0 m frame timeStep ratio tasksList).2.1.backup_start
        = (generate_schedule 0 m frame timeStep ratio tasksList).2.1.deadlines
    ∧ ∀ (m2 fuel : ℕ) (rands : List ℕ) (st2 : SimSt),
        simulate (generate_schedule 0 m frame timeStep ratio tasksList).2.1 m2 fuel rands
          = some st2 →
        st2.hp_active = 0 := by
  have hinit := generate_schedule_initInv 0 m frame timeStep ratio tasksList hempty hw hnd
  simp only [generate_schedule] at hsucc ⊢
  have hfin := buildLoop_inv 0 timeStep ratio _ _ 0 _ _ hinit (by omega) hsucc
  have hk0 := hfin.hk
  have hbs := hfin.hbs0 rfl
  have hbseq : (buildLoop
      (startScheduler 0 m frame timeStep ratio
        (dedupAppend [] ((List.insertionSort deadlineLE tasksList).map Task.deadline)))
      (List.insertionSort deadlineLE tasksList) 0
      (dedupAppend [] ((List.insertionSort deadlineLE tasksList).map Task.deadline)).length).2.1.backup_start
      = (buildLoop
      (startScheduler 0 m frame timeStep ratio
        (dedupAppend [] ((List.insertionSort deadlineLE tasksList).map Task.deadline)))
      (List.insertionSort deadlineLE tasksList) 0
      (dedupAppend [] ((List.insertionSort deadlineLE tasksList).map Task.deadline)).length).2.1.deadlines := by
    rw [hbs, hfin.hds]
    rw [Nat.zero_add]
    exact List.take_length _
  refine ⟨?_, hbseq, ?_⟩
  · intro w
    exact backupReserve_k0 _ w hk0
  · intro m2 fuel rands st2 hsim
    unfold simulate at hsim
    have hinv : SchedInv0 (buildLoop
        (startScheduler 0 m frame timeStep ratio
          (dedupAppend [] ((List.insertionSort deadlineLE tasksList).map Task.deadline)))
        (List.insertionSort deadlineLE tasksList) 0
        (dedupAppend [] ((List.insertionSort deadlineLE tasksList).map Task.deadline)).length).2.1 := by
      refine ⟨hk0, ?_, ?_⟩
      · rw [hbseq]
      · intro j
        rw [hbseq]
    exact simulateLoop_pres m2 fuel _ rands _ st2 hinv
      (by rw [hfin.hstep]; exact hstep) hsim

/-- C8 witness: the one-task k = 0 run has zero reservation, backup start at
the deadline, and an idle HP core through the whole simulation. -/
theorem C8_k0_no_backup_witness :
    backupReserve runC8.2.1 0 = 0
    ∧ runC8.2.1.backup_start = runC8.2.1.deadlines
    ∧ (simC8.getD dummySimSt).hp_active = 0 := by
  have h := C8_k0_no_backup 1 10 1 (4/5) tasksC8 (by norm_num)
    (by intro t ht; fin_cases ht <;> exact ⟨rfl, rfl⟩)
    (by intro t ht; fin_cases ht <;> norm_num [tasksC8])
    (by decide)
    (by with_unfolding_all decide)
  exact ⟨h.1 0, h.2.1, h.2.2 1 5 [] (simC8.getD dummySimSt) (by with_unfolding_all decide)⟩

/-- C6 witness: the fault pass on window 0 of the scenario-3 schedule with
sample stream [0] marks exactly min(1, 2) = 1 task within bounds. -/
theorem C6_fault_injection_witness :
    ((faultC6.1.pri_schedule.getD 0 []).filter (fun e => e.2.encountered_fault)).length
        = min runC2.2.1.k (runC2.2.1.pri_schedule.getD 0 []).length
    ∧ (faultC6.1.pri_schedule.getD 0 []).length = (runC2.2.1.pri_schedule.getD 0 []).length
    ∧ ∀ e ∈ faultC6.1.pri_schedule.getD 0 [], e.2.encountered_fault = true →
        0 ≤ e.2.relative_fault_time ∧ e.2.relative_fault_time ≤ getWorkloadQuota e.2 0 := by
  have h := C6_fault_injection runC2.2.1 0 [0] faultC6.1 faultC6.2
    (by with_unfolding_all decide)
    (by with_unfolding_all decide)
    (by with_unfolding_all decide)
  exact h

end EnSuRe
